import Mathlib

/-!
# A shallow embedding of the moltext ASCII molecule drawer

This file embeds the core of `src/worker.ts` (the main variant of the
worker: `parseV2000Molblock`, `setLine` / `setAtom`, and
`AsciiMolDrawer.drawMolblock` with its helpers) as executable Lean
definitions, and proves the specification claims about it.

Modelling conventions:
* JS strings are modelled as `List Char`; `String.slice`, `trim`,
  `split`, `parseInt`, `parseFloat` and the `\s` whitespace class get
  explicit executable models (`jsSlice`, `jsTrim`, `splitNl`,
  `jsParseInt`, `jsParseFloat`, `jsIsWhitespace`).
* JS numbers are modelled as `ℚ` (coordinates, scales) and `ℤ`
  (counts, indices, grid coordinates).  `parseInt` / `parseFloat`
  return `Option` values, `none` standing for `NaN`; the idiom
  `parseInt(x) || d` is `jsOrInt` (`NaN` and `0` are both falsy).
* The drawer's initial scale (`_initialScale`) involves a square root
  (`Math.hypot`), which has no exact rational model; every drawing
  definition therefore takes the scale as an explicit `ℚ` parameter
  and the theorems quantify over it.
* The character grid is modelled as a total function `ℤ → ℤ → Char`
  together with its explicit height and width; `setLine` / `setAtom`
  keep the source's bounds guards.
-/

/-! ## JS string and number primitives -/

/-- The JavaScript `\s` / `String.trim` whitespace class. -/
def jsIsWhitespace (c : Char) : Bool :=
  c = ' ' ∨ c = '\t' ∨ c = '\n' ∨ c = Char.ofNat 11 ∨ c = Char.ofNat 12 ∨
  c = '\r' ∨ c = Char.ofNat 0xA0 ∨ c = Char.ofNat 0x1680 ∨
  (Char.ofNat 0x2000 ≤ c ∧ c ≤ Char.ofNat 0x200A) ∨
  c = Char.ofNat 0x2028 ∨ c = Char.ofNat 0x2029 ∨ c = Char.ofNat 0x202F ∨
  c = Char.ofNat 0x205F ∨ c = Char.ofNat 0x3000 ∨ c = Char.ofNat 0xFEFF

def isDigitChar (c : Char) : Bool := '0' ≤ c ∧ c ≤ '9'

def digitVal (c : Char) : ℕ := c.toNat - 48

/-- Value of a digit string (most significant first). -/
def digitsVal (l : List Char) : ℕ := l.foldl (fun a c => 10 * a + digitVal c) 0

/-- JS `s.slice(a, b)` for `0 ≤ a ≤ b` (the only uses in the source). -/
def jsSlice (l : List Char) (a b : ℕ) : List Char := (l.take b).drop a

/-- JS `String.trim`. -/
def jsTrim (l : List Char) : List Char :=
  ((l.dropWhile jsIsWhitespace).reverse.dropWhile jsIsWhitespace).reverse

/-- JS `s.replace(/\s+$/g, "")`: strip trailing whitespace. -/
def rstrip (l : List Char) : List Char :=
  (l.reverse.dropWhile jsIsWhitespace).reverse

/-- ASCII-range model of JS `String.toUpperCase` (enough for the
`"V3000"` containment test, which only involves ASCII characters). -/
def jsToUpperAscii (c : Char) : Char :=
  if 'a' ≤ c ∧ c ≤ 'z' then Char.ofNat (c.toNat - 32) else c

/-- ASCII-range model of JS `String.toLowerCase` (enough for the
`sym.toLowerCase() === "c"` test). -/
def jsToLowerAscii (c : Char) : Char :=
  if 'A' ≤ c ∧ c ≤ 'Z' then Char.ofNat (c.toNat + 32) else c

/-- An optional leading sign; returns the sign and the rest. -/
def readSign : List Char → ℤ × List Char
  | '+' :: r => (1, r)
  | '-' :: r => (-1, r)
  | l => (1, l)

/-- JS `parseInt(s, 10)`: skip whitespace, optional sign, then a
maximal digit prefix; `none` models `NaN`. -/
def jsParseInt (l : List Char) : Option ℤ :=
  let t := l.dropWhile jsIsWhitespace
  let (sgn, r) := readSign t
  let ds := r.takeWhile isDigitChar
  if ds = [] then none else some (sgn * (digitsVal ds : ℤ))

/-- JS `parseInt(...) || d`: `NaN` and `0` are falsy. -/
def jsOrInt (v : Option ℤ) (d : ℤ) : ℤ :=
  match v with
  | some n => if n = 0 then d else n
  | none => d

/-- JS `parseFloat`: whitespace, sign, decimal mantissa, optional
well-formed exponent; `none` models `NaN` (the source always guards
the result with `|| 0`). -/
def jsParseFloat (l : List Char) : Option ℚ :=
  let t := l.dropWhile jsIsWhitespace
  let (sgn, r) := readSign t
  let ip := r.takeWhile isDigitChar
  let r2 := r.drop ip.length
  let (fp, r3) :=
    match r2 with
    | '.' :: rest => (rest.takeWhile isDigitChar,
                      rest.drop (rest.takeWhile isDigitChar).length)
    | _ => ([], r2)
  if ip = [] ∧ fp = [] then none
  else
    let mant : ℚ := (digitsVal ip : ℚ) + (digitsVal fp : ℚ) / ((10 : ℚ) ^ fp.length)
    let expv : ℤ :=
      match r3 with
      | e :: rest =>
        if e = 'e' ∨ e = 'E' then
          let (es, rr) := readSign rest
          let ed := rr.takeWhile isDigitChar
          if ed = [] then 0 else es * (digitsVal ed : ℤ)
        else 0
      | [] => 0
    some ((sgn : ℚ) * mant * (10 : ℚ) ^ expv)

/-- JS `parseFloat(...) || d`. -/
def jsOrQ (v : Option ℚ) (d : ℚ) : ℚ :=
  match v with
  | some x => if x = 0 then d else x
  | none => d

/-- Decimal digits of a natural number, modelling JS number-to-string
for the non-negative integers used in charge suffixes. -/
def natToChars (n : ℕ) : List Char :=
  if h : n < 10 then [Char.ofNat (48 + n)]
  else natToChars (n / 10) ++ [Char.ofNat (48 + n % 10)]
  decreasing_by exact Nat.div_lt_self (by omega) (by omega)

/-- `mb.replace(/\r\n?/g, "\n")`. -/
def normalizeNl : List Char → List Char
  | [] => []
  | '\r' :: '\n' :: r => '\n' :: normalizeNl r
  | '\r' :: r => '\n' :: normalizeNl r
  | c :: r => c :: normalizeNl r

/-- `s.split("\n")`. -/
def splitNl : List Char → List (List Char)
  | [] => [[]]
  | c :: r =>
    if c = '\n' then [] :: splitNl r
    else
      match splitNl r with
      | [] => [[c]]
      | h :: t => (c :: h) :: t

/-! ## The V2000 molblock parser -/

inductive ParseErr where
  | tooShort
  | unsupportedVersion
  | invalidCounts
deriving DecidableEq, Repr

structure BondR where
  i : ℤ
  j : ℤ
  order : ℤ
deriving DecidableEq, Repr

structure Mol where
  coords : List (ℚ × ℚ)
  symbols : List (List Char)
  charges : List ℤ
  bonds : List BondR
deriving DecidableEq, Repr

/-- `lines[k] ?? ""`. -/
def lineAt (lines : List (List Char)) (k : ℕ) : List Char := lines.getD k []

/-- `lines[k] ?? ""` at a possibly negative index. -/
def lineAtZ (lines : List (List Char)) (k : ℤ) : List Char :=
  if k < 0 then [] else lineAt lines k.toNat

/-- JS `haystack.includes(needle)`. -/
def jsIncludes (haystack needle : List Char) : Bool :=
  (List.range (haystack.length + 1)).any fun k => List.isPrefixOf needle (haystack.drop k)

/-- The V3000 guard:
`(lines[3] || "").toUpperCase().includes("V3000") || lines.some(l => l.startsWith("M  V30"))`. -/
def v3000Flag (lines : List (List Char)) : Bool :=
  jsIncludes ((lineAt lines 3).map jsToUpperAscii) "V3000".data ||
  lines.any (fun l => List.isPrefixOf "M  V30".data l)

/-- The tolerant counts fallback `counts.match(/^\s*(\d{1,3})\s+(\d{1,3})\b/)`. -/
def countsFallback (counts : List Char) : Option (ℤ × ℤ) :=
  let t := counts.dropWhile jsIsWhitespace
  let d1 := t.takeWhile isDigitChar
  if 1 ≤ d1.length ∧ d1.length ≤ 3 then
    let r := t.drop d1.length
    let sp := r.takeWhile jsIsWhitespace
    if sp = [] then none
    else
      let u := r.drop sp.length
      let d2 := u.takeWhile isDigitChar
      let boundary : Bool :=
        match u.drop d2.length with
        | [] => true
        | c :: _ => !(isDigitChar c || ('a' ≤ c ∧ c ≤ 'z') || ('A' ≤ c ∧ c ≤ 'Z') || c = '_')
      if 1 ≤ d2.length ∧ d2.length ≤ 3 ∧ boundary then
        some ((digitsVal d1 : ℤ), (digitsVal d2 : ℤ))
      else none
  else none

/-- The atom and bond counts: fixed columns 0–3 / 3–6 when the counts
line has at least 6 characters and both fields are finite, otherwise
the tolerant fallback. -/
def countsVal (counts : List Char) : Option (ℤ × ℤ) :=
  let primary : Option (ℤ × ℤ) :=
    if 6 ≤ counts.length then
      match jsParseInt (jsSlice counts 0 3), jsParseInt (jsSlice counts 3 6) with
      | some a, some b => some (a, b)
      | _, _ => none
    else none
  match primary with
  | some v => some v
  | none => countsFallback counts

/-- One atom record line: coordinates from columns 0–10 / 10–20
(default `0`), symbol from columns 31–34 trimmed (default `"C"`). -/
def parseAtomLine (ln : List Char) : (ℚ × ℚ) × List Char :=
  let x := jsOrQ (jsParseFloat (jsSlice ln 0 10)) 0
  let y := jsOrQ (jsParseFloat (jsSlice ln 10 20)) 0
  let sym := jsTrim (jsSlice ln 31 34)
  ((x, y), if sym = [] then ['C'] else sym)

/-- One bond record line: 1-based endpoint indices from columns 0–3 /
3–6 (`parseInt(...) || 1`, then `- 1`) and order from columns 6–9
(`parseInt(...) || 1`). -/
def parseBondLine (ln : List Char) : BondR :=
  { i := jsOrInt (jsParseInt (jsSlice ln 0 3)) 1 - 1
    j := jsOrInt (jsParseInt (jsSlice ln 3 6)) 1 - 1
    order := jsOrInt (jsParseInt (jsSlice ln 6 9)) 1 }

/-- One `M  CHG` property line applied to the charge map: count from
columns 6–9, then `n` fixed-width (index, charge) pairs, later pairs
overwriting earlier ones. -/
def applyChgLine (f : ℤ → Option ℤ) (ln : List Char) : ℤ → Option ℤ :=
  let n := jsOrInt (jsParseInt (jsSlice ln 6 9)) 0
  (List.range (max n 0).toNat).foldl
    (fun f t =>
      let pos := 9 + 8 * t
      let idx := jsOrInt (jsParseInt (jsSlice ln pos (pos + 4))) 0 - 1
      let chg := jsOrInt (jsParseInt (jsSlice ln (pos + 4) (pos + 8))) 0
      fun k => if k = idx then some chg else f k)
    f

/-- The body of the parse once the counts `(na, nb)` are known. -/
def parseBody (lines : List (List Char)) (na nb : ℤ) : Mol :=
  let naN := (max na 0).toNat
  let nbN := (max nb 0).toNat
  let atoms := (List.range naN).map fun t => parseAtomLine (lineAt lines (4 + t))
  let bonds := (List.range nbN).map fun (t : ℕ) => parseBondLine (lineAtZ lines (4 + na + (t : ℤ)))
  let chgStart : ℤ := 4 + na + nb
  let chgLines := (List.range (max ((lines.length : ℤ) - chgStart) 0).toNat).map
    fun (t : ℕ) => lineAtZ lines (chgStart + (t : ℤ))
  let chargeMap := chgLines.foldl
    (fun f ln => if List.isPrefixOf "M  CHG".data ln then applyChgLine f ln else f)
    (fun _ => none)
  { coords := atoms.map Prod.fst
    symbols := atoms.map Prod.snd
    charges := (List.range naN).map fun (i : ℕ) => (chargeMap (i : ℤ)).getD 0
    bonds := bonds }

/-- `parseV2000Molblock` (the source's local `lines` is written out
as `splitNl (normalizeNl mb.data)` at each use). -/
def parseV2000Molblock (mb : String) : Except ParseErr Mol :=
  if (splitNl (normalizeNl mb.data)).length < 4 then .error .tooShort
  else if v3000Flag (splitNl (normalizeNl mb.data)) then .error .unsupportedVersion
  else
    match countsVal (lineAt (splitNl (normalizeNl mb.data)) 3) with
    | none => .error .invalidCounts
    | some (na, nb) => .ok (parseBody (splitNl (normalizeNl mb.data)) na nb)

/-! ## Charset and drawer configuration -/

structure CharSetM where
  h_single : Char
  v_single : Char
  slash : Char
  backslash : Char
  h_double : Char
  v_double : Char
  h_triple : Char
deriving DecidableEq, Repr

/-- The Unicode preset (`new CharSet()`). -/
def unicodeCS : CharSetM :=
  { h_single := '─', v_single := '│', slash := '╱', backslash := '╲'
    h_double := '═', v_double := '║', h_triple := '≡' }

/-- The ASCII preset (`CharSet.ascii()`). -/
def asciiCS : CharSetM :=
  { h_single := '-', v_single := '|', slash := '/', backslash := '\\'
    h_double := '=', v_double := '|', h_triple := '#' }

/-- `AsciiMolDrawer` constructor configuration.  `target_bond_chars`
only feeds `_initialScale`, whose square root has no rational model;
the scale is a parameter of the drawing functions instead. -/
structure DrawCfg where
  pad : ℤ
  scale_bump : ℚ
  max_bumps : ℕ
  show_formal_charge : Bool
  use_unicode : Bool
deriving DecidableEq, Repr

/-- Constructor defaults: `pad = 2`, `scale_bump = 1.12`,
`max_bumps = 8`, `show_formal_charge = true`, `use_unicode = true`. -/
def defaultCfg : DrawCfg :=
  { pad := 2, scale_bump := 28 / 25, max_bumps := 8
    show_formal_charge := true, use_unicode := true }

def csOf (cfg : DrawCfg) : CharSetM := if cfg.use_unicode then unicodeCS else asciiCS

/-- `useUnicode = cs.h_single !== "-"`. -/
def useUniOf (cfg : DrawCfg) : Bool := (csOf cfg).h_single ≠ '-'

/-! ## Grid writes -/

def LINE_CHARS_ASCII : List Char := ['-', '|', '\\', '/', '=', '#', '+']
def LINE_CHARS_UNI : List Char := ['─', '│', '╱', '╲', '═', '║', '≡', '┼', '+']

def isLineChar (c : Char) : Bool := LINE_CHARS_ASCII.contains c || LINE_CHARS_UNI.contains c

/-- The grid: a total function with explicit extent, standing for the
`height × width` array of one-character cells. -/
abbrev Grid : Type := ℤ → ℤ → Char

def emptyGrid : Grid := fun _ _ => ' '

def updateCell (g : Grid) (r c : ℤ) (ch : Char) : Grid :=
  fun r' c' => if r' = r ∧ c' = c then ch else g r' c'

/-- `setLine`: write into a blank cell; replace a line glyph by the
junction glyph when both old and new are line-class; otherwise leave
the cell (atoms win).  Out-of-bounds writes are dropped. -/
def setLine (h w : ℤ) (g : Grid) (r c : ℤ) (ch : Char) (useUni : Bool) : Grid :=
  if r < 0 ∨ h ≤ r ∨ c < 0 ∨ w ≤ c then g
  else if g r c = ' ' then updateCell g r c ch
  else if isLineChar (g r c) ∧ isLineChar ch then
    updateCell g r c (if useUni then '┼' else '+')
  else g

/-- `setAtom`: always overwrite the cell.  Out-of-bounds writes are
dropped. -/
def setAtom (h w : ℤ) (g : Grid) (r c : ℤ) (ch : Char) : Grid :=
  if r < 0 ∨ h ≤ r ∨ c < 0 ∨ w ≤ c then g
  else updateCell g r c ch

/-! ## Labels, placement, overlap, retry loop -/

/-- `_label`: canonical symbol (lowercase `"c"` becomes `"C"`) plus an
optional charge suffix. -/
def mkLabel (cfg : DrawCfg) (sym : List Char) (q : ℤ) : List Char :=
  let s := if sym.map jsToLowerAscii = ['c'] then ['C'] else sym
  if cfg.show_formal_charge ∧ q ≠ 0 then
    s ++ (if q.natAbs = 1 then [if 0 < q then '+' else '-']
          else (if 0 < q then '+' else '-') :: natToChars q.natAbs)
  else s

/-- JS `Math.round`: round half toward `+∞`. -/
def jsRound (q : ℚ) : ℤ := ⌊q + 1 / 2⌋

/-- `_nearestEven`: `Math.trunc(2 * Math.round(x / 2))` (the `trunc`
of an integer is itself). -/
def nearestEven (q : ℚ) : ℤ := 2 * jsRound (q / 2)

/-- `_placeAtomsEvenGrid`: snap `(x·s, −y·s)` to the even grid. -/
def placeAtomsEvenGrid (coords : List (ℚ × ℚ)) (s : ℚ) : List (ℤ × ℤ) :=
  coords.map fun p => (nearestEven (p.1 * s), nearestEven (-p.2 * s))

/-- Label column span start: `x - Math.trunc(lab.length / 2)`. -/
def labelStart (x : ℤ) (lab : List Char) : ℤ := x - (lab.length / 2 : ℕ)

/-- The span-conflict test of `_labelsOverlap`:
`!(end < s0 + 1 || start > e0 - 1)`. -/
def spanConflict (start e : ℤ) (s0 e0 : ℤ) : Bool :=
  !(e < s0 + 1 || start > e0 - 1)

/-- The row-indexed span store of `_labelsOverlap` (`Map<number, spans>`). -/
abbrev RowSpans : Type := ℤ → List (ℤ × ℤ)

def labelsOverlapGo (rows : RowSpans) : List ((ℤ × ℤ) × List Char) → Bool
  | [] => false
  | pl :: rest =>
    let x := pl.1.1
    let y := pl.1.2
    let lab := pl.2
    let start := labelStart x lab
    let e := start + lab.length - 1
    let arr := rows y
    if arr.any (fun se => spanConflict start e se.1 se.2) then true
    else labelsOverlapGo (fun y' => if y' = y then arr ++ [(start, e)] else rows y') rest

/-- `_labelsOverlap`. -/
def labelsOverlap (pts : List (ℤ × ℤ)) (labels : List (List Char)) : Bool :=
  labelsOverlapGo (fun _ => []) (pts.zip labels)

/-- The retry loop of `drawMolblock`: `fuel` remaining bumps after the
current attempt, so the top-level call uses `fuel = max_bumps`
(`for (attempt = 0; attempt <= max_bumps; ...)`). -/
def layoutLoop (bump : ℚ) (coords : List (ℚ × ℚ)) (labels : List (List Char)) :
    ℕ → ℚ → List (ℤ × ℤ)
  | 0, s => placeAtomsEvenGrid coords s
  | n + 1, s =>
    let pts := placeAtomsEvenGrid coords s
    if labelsOverlap pts labels then layoutLoop bump coords labels n (s * bump)
    else pts

/-! ## Extents, write operations, the grid, serialization -/

/-- `pts[i]` for a (possibly invalid) bond endpoint index; the source
crashes on an out-of-range index, the model totalizes with `(0, 0)`
(the claims about bonds assume in-range indices). -/
def getPt (pts : List (ℤ × ℤ)) (i : ℤ) : ℤ × ℤ :=
  if i < 0 then (0, 0) else pts.getD i.toNat (0, 0)

/-- Aromatic display order: `b.order === 4 ? 2 : b.order`. -/
def displayOrder (o : ℤ) : ℤ := if o = 4 then 2 else o

/-- `_bondChar`. -/
def bondChar (cs : CharSetM) (p q : ℤ × ℤ) (order : ℤ) : Char :=
  if p.2 = q.2 then
    if order = 2 then cs.h_double else if order = 3 then cs.h_triple else cs.h_single
  else if p.1 = q.1 then
    if order = 2 then cs.v_double else cs.v_single
  else if (q.1 - p.1) * (q.2 - p.2) < 0 then cs.slash else cs.backslash

structure MolExt where
  minx : ℤ
  miny : ℤ
  maxx : ℤ
  maxy : ℤ
deriving DecidableEq, Repr

/-- The `1e9` sentinels that start the extent fold. -/
def extInit : MolExt := { minx := 10 ^ 9, miny := 10 ^ 9, maxx := -10 ^ 9, maxy := -10 ^ 9 }

def extAtomStep (st : MolExt) (pl : (ℤ × ℤ) × List Char) : MolExt :=
  let x0 := labelStart pl.1.1 pl.2
  let x1 := x0 + pl.2.length - 1
  { minx := min st.minx x0, miny := min st.miny pl.1.2
    maxx := max st.maxx x1, maxy := max st.maxy pl.1.2 }

def bondMid (pts : List (ℤ × ℤ)) (b : BondR) : ℤ × ℤ :=
  let p := getPt pts b.i
  let q := getPt pts b.j
  (Int.tdiv (p.1 + q.1) 2, Int.tdiv (p.2 + q.2) 2)

/-- Whether a bond is diagonal with display order ≥ 2 (needs one extra
cell of margin for the parallel stroke). -/
def bondExtra (pts : List (ℤ × ℤ)) (b : BondR) : ℤ :=
  let p := getPt pts b.i
  let q := getPt pts b.j
  if (p.1 ≠ q.1 ∧ p.2 ≠ q.2) ∧ 2 ≤ displayOrder b.order then 1 else 0

def extBondStep (pts : List (ℤ × ℤ)) (st : MolExt) (b : BondR) : MolExt :=
  let m := bondMid pts b
  let ex := bondExtra pts b
  { minx := min st.minx (m.1 - ex), miny := min st.miny (m.2 - ex)
    maxx := max st.maxx (m.1 + ex), maxy := max st.maxy (m.2 + ex) }

/-- The indexed (point, label) pairs of the per-atom loops
(`for i < pts.length` with `pts[i]`, `labels[i]`); totalized with
defaults like `getPt`. -/
def pairsOf (pts : List (ℤ × ℤ)) (labels : List (List Char)) : List ((ℤ × ℤ) × List Char) :=
  (List.range pts.length).map fun i => (pts.getD i (0, 0), labels.getD i [])

/-- `_extentsWithLabelsAndBonds`: fold the label footprints, then the
bond midpoints (with the diagonal-multiplicity margin). -/
def extentsWithLabelsAndBonds (pts : List (ℤ × ℤ)) (labels : List (List Char))
    (bonds : List BondR) : MolExt :=
  bonds.foldl (extBondStep pts) ((pairsOf pts labels).foldl extAtomStep extInit)

/-- One write operation: target cell (row, column) and glyph. -/
abbrev WriteOp : Type := (ℤ × ℤ) × Char

/-- The `setLine` calls issued for one bond, in source order: the
midpoint glyph, then for diagonal double/triple bonds the parallel
stroke(s). -/
def bondWriteOps (cs : CharSetM) (pts : List (ℤ × ℤ)) (oy ox : ℤ) (b : BondR) :
    List WriteOp :=
  let p := getPt pts b.i
  let q := getPt pts b.j
  let m := bondMid pts b
  let ord := displayOrder b.order
  let ch := bondChar cs p q ord
  let base : List WriteOp := [((m.2 + oy, m.1 + ox), ch)]
  if (p.1 ≠ q.1 ∧ p.2 ≠ q.2) ∧ 2 ≤ ord then
    if ch = cs.slash then
      base ++ [((m.2 + oy, m.1 + ox + 1), ch)] ++
        (if 3 ≤ ord then [((m.2 + oy - 1, m.1 + ox - 1), ch)] else [])
    else
      base ++ [((m.2 + oy, m.1 + ox - 1), ch)] ++
        (if 3 ≤ ord then [((m.2 + oy - 1, m.1 + ox + 1), ch)] else [])
  else base

/-- The `setAtom` calls issued for one atom's label. -/
def atomWriteOps (oy ox : ℤ) (p : ℤ × ℤ) (lab : List Char) : List WriteOp :=
  (List.range lab.length).map fun (k : ℕ) =>
    ((p.2 + oy, labelStart p.1 lab + ox + (k : ℤ)), lab.getD k ' ')

/-! ## The drawing pipeline -/

/-- Grid width from the extents: `maxx - minx + 1 + 2 * pad`. -/
def widthFP (pad : ℤ) (e : MolExt) : ℤ := e.maxx - e.minx + 1 + 2 * pad

/-- Grid height from the extents: `maxy - miny + 1 + 2 * pad`. -/
def heightFP (pad : ℤ) (e : MolExt) : ℤ := e.maxy - e.miny + 1 + 2 * pad

/-- Column offset `ox = -minx + pad`. -/
def oxFP (pad : ℤ) (e : MolExt) : ℤ := -e.minx + pad

/-- Row offset `oy = -miny + pad`. -/
def oyFP (pad : ℤ) (e : MolExt) : ℤ := -e.miny + pad

/-- All bond-phase writes, in draw order, from given placements. -/
def bondOpsFP (cfg : DrawCfg) (pts : List (ℤ × ℤ)) (labels : List (List Char))
    (bonds : List BondR) : List WriteOp :=
  bonds.flatMap
    (bondWriteOps (csOf cfg) pts
      (oyFP cfg.pad (extentsWithLabelsAndBonds pts labels bonds))
      (oxFP cfg.pad (extentsWithLabelsAndBonds pts labels bonds)))

/-- All atom-phase writes, in draw order, from given placements. -/
def atomOpsFP (cfg : DrawCfg) (pts : List (ℤ × ℤ)) (labels : List (List Char))
    (bonds : List BondR) : List WriteOp :=
  (pairsOf pts labels).flatMap fun pl =>
    atomWriteOps (oyFP cfg.pad (extentsWithLabelsAndBonds pts labels bonds))
      (oxFP cfg.pad (extentsWithLabelsAndBonds pts labels bonds)) pl.1 pl.2

/-- The bond-phase writes applied in order through `setLine`. -/
def setLineFold (h w : ℤ) (useUni : Bool) (g : Grid) (ops : List WriteOp) : Grid :=
  ops.foldl (fun g op => setLine h w g op.1.1 op.1.2 op.2 useUni) g

/-- The atom-phase writes applied in order through `setAtom`. -/
def setAtomFold (h w : ℤ) (g : Grid) (ops : List WriteOp) : Grid :=
  ops.foldl (fun g op => setAtom h w g op.1.1 op.1.2 op.2) g

/-- The grid after `drawMolblock`'s two draw phases (bonds first via
`setLine`, atoms second via `setAtom`), from given placements. -/
def gridFP (cfg : DrawCfg) (pts : List (ℤ × ℤ)) (labels : List (List Char))
    (bonds : List BondR) : Grid :=
  setAtomFold (heightFP cfg.pad (extentsWithLabelsAndBonds pts labels bonds))
    (widthFP cfg.pad (extentsWithLabelsAndBonds pts labels bonds))
    (setLineFold (heightFP cfg.pad (extentsWithLabelsAndBonds pts labels bonds))
      (widthFP cfg.pad (extentsWithLabelsAndBonds pts labels bonds)) (useUniOf cfg)
      emptyGrid (bondOpsFP cfg pts labels bonds))
    (atomOpsFP cfg pts labels bonds)

def isBlankLine (l : List Char) : Bool := l.all jsIsWhitespace

/-- The rows of the grid, each with trailing whitespace stripped
(`row.join("").replace(/\s+$/g, "")`). -/
def rowsFP (cfg : DrawCfg) (pts : List (ℤ × ℤ)) (labels : List (List Char))
    (bonds : List BondR) : List (List Char) :=
  (List.range (heightFP cfg.pad (extentsWithLabelsAndBonds pts labels bonds)).toNat).map
    fun (r : ℕ) =>
      rstrip
        ((List.range (widthFP cfg.pad (extentsWithLabelsAndBonds pts labels bonds)).toNat).map
          fun (c : ℕ) => gridFP cfg pts labels bonds (r : ℤ) (c : ℤ))

/-- Drop the leading and trailing all-blank rows (the two `while`
loops of `drawMolblock`). -/
def finalLinesFP (cfg : DrawCfg) (pts : List (ℤ × ℤ)) (labels : List (List Char))
    (bonds : List BondR) : List (List Char) :=
  (((rowsFP cfg pts labels bonds).dropWhile isBlankLine).reverse.dropWhile isBlankLine).reverse

/-- Serialize: `lines.join("\n")`. -/
def drawFP (cfg : DrawCfg) (pts : List (ℤ × ℤ)) (labels : List (List Char))
    (bonds : List BondR) : String :=
  String.intercalate "\n" ((finalLinesFP cfg pts labels bonds).map fun l => String.mk l)

/-! ### The scale-parameterized wrappers -/

def labelsOf (cfg : DrawCfg) (mol : Mol) : List (List Char) :=
  (mol.symbols.zip mol.charges).map fun sq => mkLabel cfg sq.1 sq.2

def ptsOf (cfg : DrawCfg) (mol : Mol) (s : ℚ) : List (ℤ × ℤ) :=
  layoutLoop cfg.scale_bump mol.coords (labelsOf cfg mol) cfg.max_bumps s

def extOf (cfg : DrawCfg) (mol : Mol) (s : ℚ) : MolExt :=
  extentsWithLabelsAndBonds (ptsOf cfg mol s) (labelsOf cfg mol) mol.bonds

def widthOf (cfg : DrawCfg) (mol : Mol) (s : ℚ) : ℤ := widthFP cfg.pad (extOf cfg mol s)

def heightOf (cfg : DrawCfg) (mol : Mol) (s : ℚ) : ℤ := heightFP cfg.pad (extOf cfg mol s)

def oxOf (cfg : DrawCfg) (mol : Mol) (s : ℚ) : ℤ := oxFP cfg.pad (extOf cfg mol s)
def oyOf (cfg : DrawCfg) (mol : Mol) (s : ℚ) : ℤ := oyFP cfg.pad (extOf cfg mol s)

/-- All bond-phase writes, in draw order. -/
def bondOpsOf (cfg : DrawCfg) (mol : Mol) (s : ℚ) : List WriteOp :=
  bondOpsFP cfg (ptsOf cfg mol s) (labelsOf cfg mol) mol.bonds

/-- All atom-phase writes, in draw order. -/
def atomOpsOf (cfg : DrawCfg) (mol : Mol) (s : ℚ) : List WriteOp :=
  atomOpsFP cfg (ptsOf cfg mol s) (labelsOf cfg mol) mol.bonds

/-- The grid after `drawMolblock`'s two draw phases: bonds first via
`setLine`, atoms second via `setAtom`. -/
def gridOf (cfg : DrawCfg) (mol : Mol) (s : ℚ) : Grid :=
  gridFP cfg (ptsOf cfg mol s) (labelsOf cfg mol) mol.bonds

def rowsOf (cfg : DrawCfg) (mol : Mol) (s : ℚ) : List (List Char) :=
  rowsFP cfg (ptsOf cfg mol s) (labelsOf cfg mol) mol.bonds

def finalLinesOf (cfg : DrawCfg) (mol : Mol) (s : ℚ) : List (List Char) :=
  finalLinesFP cfg (ptsOf cfg mol s) (labelsOf cfg mol) mol.bonds

/-- `drawMolblock` after parsing, at an explicit scale. -/
def drawMolAt (cfg : DrawCfg) (mol : Mol) (s : ℚ) : String :=
  drawFP cfg (ptsOf cfg mol s) (labelsOf cfg mol) mol.bonds

/-- `drawMolblock`, with the initial scale (a float square-root
computation in the source) supplied as the parameter `s`. -/
def drawMolblockAt (cfg : DrawCfg) (mb : String) (s : ℚ) : Except ParseErr String :=
  match parseV2000Molblock mb with
  | .error e => .error e
  | .ok mol => .ok (drawMolAt cfg mol s)

/-- The grid row of atom `i`'s label (`y + oy`). -/
def atomRow (cfg : DrawCfg) (mol : Mol) (s : ℚ) (i : ℕ) : ℤ :=
  ((ptsOf cfg mol s).getD i (0, 0)).2 + oyOf cfg mol s

/-- Atom `i`'s label as drawn. -/
def atomLabel (cfg : DrawCfg) (mol : Mol) (i : ℕ) : List Char :=
  (labelsOf cfg mol).getD i []

/-- The grid column of the first character of atom `i`'s label
(`x - trunc(len/2) + ox`). -/
def atomColStart (cfg : DrawCfg) (mol : Mol) (s : ℚ) (i : ℕ) : ℤ :=
  labelStart ((ptsOf cfg mol s).getD i (0, 0)).1 (atomLabel cfg mol i) + oxOf cfg mol s

/-! ## Concrete example inputs -/

/-- A molblock with zero atoms and zero bonds. -/
def exEmptyMb : String := "\n\n\n  0  0\n"

/-- Two atoms (`N`, then `O`) at identical coordinates, no bonds. -/
def exTwoAtomMb : String :=
  "\n\n\n  2  0\n                               N\n                               O"

/-- One atom, and one bond record whose first endpoint field reads
`999` — far beyond the declared atom count of 1. -/
def exBond998Mb : String :=
  "\n\n\n  1  1\n                               C\n999  1  1"

/-- One atom, and one bond record whose first endpoint field is
unparseable (`abc`). -/
def exBondBadMb : String :=
  "\n\n\n  1  1\n                               C\nabc  1  1"

/-- One atom bonded to itself (a degenerate but parseable record):
used to exercise the bond write path with in-range indices. -/
def exSelfBondMb : String :=
  "\n\n\n  1  1\n                               C\n  1  1  1"

/-- One lone atom. -/
def exOneAtomMb : String := "\n\n\n  1  0\n                               C"

/-- The molecule parsed from `exTwoAtomMb`. -/
def c1mol : Mol :=
  { coords := [(0, 0), (0, 0)], symbols := [['N'], ['O']], charges := [0, 0], bonds := [] }

/-! ## Structural error conditions of the parser (for claim C4) -/

/-- Fewer than 4 lines after newline normalization. -/
abbrev tooShortCond (mb : String) : Prop :=
  (splitNl (normalizeNl mb.data)).length < 4

/-- The 4th line contains `V3000` (case-insensitively) or some line
starts with `M  V30`. -/
abbrev v3000Cond (mb : String) : Prop :=
  v3000Flag (splitNl (normalizeNl mb.data)) = true

/-- The counts line yields finite atom/bond counts from the fixed
columns or from the tolerant fallback. -/
abbrev countsOkCond (mb : String) : Prop :=
  (countsVal (lineAt (splitNl (normalizeNl mb.data)) 3)).isSome

instance : DecidableEq (Except ParseErr Mol) := fun a b =>
  match a, b with
  | .ok x, .ok y => if h : x = y then isTrue (by rw [h]) else isFalse (by simp [h])
  | .error x, .error y => if h : x = y then isTrue (by rw [h]) else isFalse (by simp [h])
  | .ok _, .error _ => isFalse (by simp)
  | .error _, .ok _ => isFalse (by simp)

/-! # Theorems -/

/-! ## C2: the label-overlap test (code bug) -/

/-- **C2** (code bug).  The spec and the source's own comment
(`// touching counts as overlap`) say two label spans on the same row
conflict when they are touching or intersecting.  The implemented
test `!(end < s0 + 1 || start > e0 - 1)` flags only spans that
overlap in their interiors: two adjacent (touching) one-character
labels at columns 0 and 1 are not reported, and neither are two
identical one-character spans at the same cell. -/
theorem c2_labelsOverlap_misses_touching :
    labelsOverlap [((0 : ℤ), (0 : ℤ)), ((1 : ℤ), (0 : ℤ))] [['C'], ['C']] = false ∧
    labelsOverlap [((0 : ℤ), (0 : ℤ)), ((0 : ℤ), (0 : ℤ))] [['C'], ['C']] = false ∧
    labelsOverlap [((0 : ℤ), (0 : ℤ)), ((0 : ℤ), (0 : ℤ))] [['C', 'l'], ['C', 'l']] = true := by
  decide

/-! ## C4: structural parse failures -/

/-- **C4** (confirmed).  `parseV2000Molblock` fails with the too-short
error exactly when the normalized input has fewer than 4 lines; with
the unsupported-version error exactly when it is long enough and the
V3000 marker test fires; with the invalid-counts error exactly when,
in addition, both the fixed-column counts read and the tolerant
fallback fail; and succeeds in every other case — malformed
coordinate, symbol, bond-index, bond-order and charge fields are
always recovered with defaults and never abort the parse. -/
theorem c4_parse_error_cases (mb : String) :
    (parseV2000Molblock mb = .error .tooShort ↔ tooShortCond mb) ∧
    (parseV2000Molblock mb = .error .unsupportedVersion ↔ ¬tooShortCond mb ∧ v3000Cond mb) ∧
    (parseV2000Molblock mb = .error .invalidCounts ↔
      ¬tooShortCond mb ∧ ¬v3000Cond mb ∧ ¬countsOkCond mb) ∧
    ((∃ m, parseV2000Molblock mb = .ok m) ↔
      ¬tooShortCond mb ∧ ¬v3000Cond mb ∧ countsOkCond mb) := by
  unfold parseV2000Molblock tooShortCond v3000Cond countsOkCond
  by_cases h1 : (splitNl (normalizeNl mb.data)).length < 4
  · simp [h1]
  · by_cases h2 : v3000Flag (splitNl (normalizeNl mb.data)) = true
    · simp [h1, h2]
    · rcases hc : countsVal (lineAt (splitNl (normalizeNl mb.data)) 3) with _ | ⟨na, nb⟩ <;>
        simp [h1, h2, hc]

/-- Concrete instances of `c4_parse_error_cases`: a 3-line input is
too short; `exEmptyMb` parses. -/
theorem c4_parse_error_cases_witness :
    parseV2000Molblock "a\nb\nc" = .error .tooShort ∧
    ∃ m, parseV2000Molblock exEmptyMb = .ok m :=
  ⟨(c4_parse_error_cases "a\nb\nc").1.mpr (by decide),
   (c4_parse_error_cases exEmptyMb).2.2.2.mpr (by decide)⟩

/-! ## C3: the bounded scale-bump retry loop -/

/-- **C3** (confirmed).  With the default configuration
(`scale_bump = 1.12`, `max_bumps = 8`), the layout loop runs at most
`max_bumps + 1` placement attempts: there is a bump count
`k ≤ max_bumps` such that the accepted placement is the one computed
at scale `s·bump^k`, every earlier attempt had a label conflict, and
either attempt `k` is conflict-free or the cap was reached
(`k = max_bumps`) and the last computed placement is accepted as is —
never an error. -/
theorem c3_retry_loop :
    defaultCfg.scale_bump = 28 / 25 ∧ defaultCfg.max_bumps = 8 ∧
    ∀ (bump : ℚ) (coords : List (ℚ × ℚ)) (labels : List (List Char)) (N : ℕ) (s : ℚ),
      ∃ k ≤ N,
        layoutLoop bump coords labels N s = placeAtomsEvenGrid coords (s * bump ^ k) ∧
        (∀ m < k, labelsOverlap (placeAtomsEvenGrid coords (s * bump ^ m)) labels = true) ∧
        (labelsOverlap (placeAtomsEvenGrid coords (s * bump ^ k)) labels = false ∨
          k = N) := by
  refine ⟨rfl, rfl, fun bump coords labels N => ?_⟩
  induction N with
  | zero =>
    intro s
    exact ⟨0, le_refl 0, by simp [layoutLoop], fun m hm => absurd hm (Nat.not_lt_zero m),
      Or.inr rfl⟩
  | succ n ih =>
    intro s
    by_cases hov : labelsOverlap (placeAtomsEvenGrid coords s) labels = true
    · obtain ⟨k, hk, heq, hall, hend⟩ := ih (s * bump)
      have hsc : ∀ m : ℕ, s * bump * bump ^ m = s * bump ^ (m + 1) := by
        intro m; rw [pow_succ]; ring
      refine ⟨k + 1, by omega, ?_, ?_, ?_⟩
      · rw [layoutLoop, if_pos hov, heq, hsc]
      · intro m hm
        match m with
        | 0 => simpa using hov
        | m + 1 => rw [← hsc]; exact hall m (by omega)
      · rcases hend with h | h
        · exact Or.inl (by rw [← hsc]; exact h)
        · exact Or.inr (by omega)
    · refine ⟨0, Nat.zero_le _, ?_, fun m hm => absurd hm (Nat.not_lt_zero m), ?_⟩
      · rw [layoutLoop, if_neg hov]; simp
      · exact Or.inl (by simpa using Bool.not_eq_true _ ▸ (Bool.eq_false_iff.mpr hov))

/-! ## C5: even-grid snapping and bonded-pair separation -/

/-- **C5** (counterexample).  The claim that bonded atoms' placements
always differ by at least 2 grid units on some axis fails: with
coordinates `(0,0)` and `(1/2, 0)` (bond between atoms 0 and 1) at
scale 1, both atoms snap to the same grid point `(0,0)`, so the
placements differ by 0 on both axes. -/
theorem c5_counterexample :
    placeAtomsEvenGrid [((0 : ℚ), (0 : ℚ)), ((1 / 2 : ℚ), (0 : ℚ))] 1 = [(0, 0), (0, 0)] ∧
    ¬(2 ≤ |(0 : ℤ) - 0| ∨ 2 ≤ |(0 : ℤ) - 0|) := by
  constructor
  · norm_num [placeAtomsEvenGrid, nearestEven, jsRound]
  · decide

/-- **C5** (amended).  `_nearestEven` is exactly
`round(x/2) × 2`, and for any two placed atoms (in particular any
bonded pair with in-range endpoint indices) the placements either
coincide exactly or differ by at least 2 grid units on at least one
axis — coincidence is possible, so the "always ≥ 2 apart" form of the
claim is what the counterexample forces us to weaken. -/
theorem c5_amended :
    (∀ x : ℚ, nearestEven x = 2 * jsRound (x / 2)) ∧
    ∀ (coords : List (ℚ × ℚ)) (s : ℚ) (i j : ℕ),
      i < coords.length → j < coords.length →
      ((placeAtomsEvenGrid coords s).getD i (0, 0) = (placeAtomsEvenGrid coords s).getD j (0, 0) ∨
        2 ≤ |((placeAtomsEvenGrid coords s).getD i (0, 0)).1 -
              ((placeAtomsEvenGrid coords s).getD j (0, 0)).1| ∨
        2 ≤ |((placeAtomsEvenGrid coords s).getD i (0, 0)).2 -
              ((placeAtomsEvenGrid coords s).getD j (0, 0)).2|) := by
  refine ⟨fun x => rfl, fun coords s i j hi hj => ?_⟩
  have hlen : ∀ k : ℕ, k < coords.length →
      ∃ a b : ℤ, (placeAtomsEvenGrid coords s).getD k (0, 0) = (2 * a, 2 * b) := by
    intro k hk
    have hk' : k < (placeAtomsEvenGrid coords s).length := by
      simpa [placeAtomsEvenGrid] using hk
    rw [List.getD_eq_getElem _ _ hk']
    simp only [placeAtomsEvenGrid, List.getElem_map]
    exact ⟨jsRound (((coords[k]).1 * s) / 2), jsRound ((-(coords[k]).2 * s) / 2), rfl⟩
  obtain ⟨a, b, hab⟩ := hlen i hi
  obtain ⟨c, d, hcd⟩ := hlen j hj
  rw [hab, hcd]
  by_cases hx : a = c
  · by_cases hy : b = d
    · exact Or.inl (by rw [hx, hy])
    · refine Or.inr (Or.inr ?_)
      have h2 : (2 : ℤ) ∣ (2 * b - 2 * d) := ⟨b - d, by ring⟩
      have hne : (2 * b - 2 * d : ℤ) ≠ 0 := by omega
      exact Int.le_of_dvd (abs_pos.mpr hne) ((dvd_abs _ _).mpr h2)
  · refine Or.inr (Or.inl ?_)
    have h2 : (2 : ℤ) ∣ (2 * a - 2 * c) := ⟨a - c, by ring⟩
    have hne : (2 * a - 2 * c : ℤ) ≠ 0 := by omega
    exact Int.le_of_dvd (abs_pos.mpr hne) ((dvd_abs _ _).mpr h2)

/-- Concrete instance of `c5_amended`: coordinates `(0,0)` and
`(3/2, 0)` at scale 1 place at `(0,0)` and `(2,0)`. -/
theorem c5_amended_witness :
    (placeAtomsEvenGrid [((0 : ℚ), (0 : ℚ)), ((3 / 2 : ℚ), (0 : ℚ))] 1).getD 0 (0, 0) =
        (placeAtomsEvenGrid [((0 : ℚ), (0 : ℚ)), ((3 / 2 : ℚ), (0 : ℚ))] 1).getD 1 (0, 0) ∨
      2 ≤ |((placeAtomsEvenGrid [((0 : ℚ), (0 : ℚ)), ((3 / 2 : ℚ), (0 : ℚ))] 1).getD 0 (0, 0)).1 -
            ((placeAtomsEvenGrid [((0 : ℚ), (0 : ℚ)), ((3 / 2 : ℚ), (0 : ℚ))] 1).getD 1 (0, 0)).1| ∨
      2 ≤ |((placeAtomsEvenGrid [((0 : ℚ), (0 : ℚ)), ((3 / 2 : ℚ), (0 : ℚ))] 1).getD 0 (0, 0)).2 -
            ((placeAtomsEvenGrid [((0 : ℚ), (0 : ℚ)), ((3 / 2 : ℚ), (0 : ℚ))] 1).getD 1 (0, 0)).2| :=
  c5_amended.2 [((0 : ℚ), (0 : ℚ)), ((3 / 2 : ℚ), (0 : ℚ))] 1 0 1 (by decide) (by decide)

/-! ## C8: bond endpoint indices are never range-checked -/

/-- **C8** (counterexample).  The claim that out-of-range bond
endpoint indices are defaulted to 0 is false: with one declared atom
and a bond record whose first field reads `999`, the parse succeeds
and stores endpoint index `998` (not 0), far beyond the atom count. -/
theorem c8_counterexample :
    parseV2000Molblock exBond998Mb =
      .ok { coords := [(0, 0)], symbols := [['C']], charges := [0],
            bonds := [{ i := 998, j := 0, order := 1 }] } ∧
    ∃ m, parseV2000Molblock exBond998Mb = Except.ok m ∧ m.symbols.length = 1 ∧
      ∃ b ∈ m.bonds, (m.symbols.length : ℤ) ≤ b.i ∧ b.i ≠ 0 := by
  exact ⟨by decide,
    ⟨{ coords := [(0, 0)], symbols := [['C']], charges := [0],
       bonds := [{ i := 998, j := 0, order := 1 }] },
     by decide, by decide,
     ⟨{ i := 998, j := 0, order := 1 }, by decide, by decide, by decide⟩⟩⟩

/-- **C8** (amended).  Malformed (unparseable or zero) bond endpoint
fields default to 0 after the 1-based to 0-based conversion; numeric
fields are kept as parsed with no range validation against the
declared atom count, so a bond record can reference any
representable atom index without the parse failing (endpoint `998`
with 1 atom parses; an unparseable endpoint parses to 0). -/
theorem c8_amended :
    (∀ ln : List Char,
      (jsParseInt (jsSlice ln 0 3) = none ∨ jsParseInt (jsSlice ln 0 3) = some 0) →
      (parseBondLine ln).i = 0) ∧
    (∀ ln : List Char,
      (jsParseInt (jsSlice ln 3 6) = none ∨ jsParseInt (jsSlice ln 3 6) = some 0) →
      (parseBondLine ln).j = 0) ∧
    parseV2000Molblock exBond998Mb =
      .ok { coords := [(0, 0)], symbols := [['C']], charges := [0],
            bonds := [{ i := 998, j := 0, order := 1 }] } ∧
    parseV2000Molblock exBondBadMb =
      .ok { coords := [(0, 0)], symbols := [['C']], charges := [0],
            bonds := [{ i := 0, j := 0, order := 1 }] } := by
  refine ⟨fun ln h => ?_, fun ln h => ?_, by decide, by decide⟩
  · rcases h with h | h <;> simp [parseBondLine, jsOrInt, h]
  · rcases h with h | h <;> simp [parseBondLine, jsOrInt, h]

/-- Concrete instance of `c8_amended`: an unparseable endpoint field
defaults to atom index 0. -/
theorem c8_amended_witness : (parseBondLine "abc  1  1".data).i = 0 :=
  c8_amended.1 "abc  1  1".data (Or.inl (by decide))

/-! ## C7: aromatic (order 4) renders as order 2 -/

theorem bondWriteOps_congr (cs : CharSetM) (pts : List (ℤ × ℤ)) (oy ox : ℤ)
    (b b' : BondR) (hi : b'.i = b.i) (hj : b'.j = b.j)
    (hord : displayOrder b'.order = displayOrder b.order) :
    bondWriteOps cs pts oy ox b' = bondWriteOps cs pts oy ox b := by
  simp only [bondWriteOps, bondMid, hi, hj, hord]

theorem extBondStep_congr (pts : List (ℤ × ℤ)) (st : MolExt) (b b' : BondR)
    (hi : b'.i = b.i) (hj : b'.j = b.j)
    (hord : displayOrder b'.order = displayOrder b.order) :
    extBondStep pts st b' = extBondStep pts st b := by
  simp only [extBondStep, bondMid, bondExtra, hi, hj, hord]

theorem drawFP_bonds_congr (cfg : DrawCfg) (pts : List (ℤ × ℤ)) (labels : List (List Char))
    (bonds bonds' : List BondR)
    (h1 : extentsWithLabelsAndBonds pts labels bonds' = extentsWithLabelsAndBonds pts labels bonds)
    (h2 : ∀ oy ox : ℤ, bonds'.flatMap (bondWriteOps (csOf cfg) pts oy ox) =
        bonds.flatMap (bondWriteOps (csOf cfg) pts oy ox)) :
    drawFP cfg pts labels bonds' = drawFP cfg pts labels bonds := by
  unfold drawFP finalLinesFP rowsFP gridFP atomOpsFP bondOpsFP
  rw [h1, h2]

/-- **C7** (confirmed).  A bond declared with order 4 (aromatic)
renders exactly like the same bond with order 2: replacing order 4 by
order 2 in any one bond record leaves the output of the drawer
byte-identical, for every configuration, molecule and scale. -/
theorem c7_order4_renders_as_order2 (cfg : DrawCfg) (mol : Mol) (s : ℚ)
    (pre post : List BondR) (b : BondR) (hb : mol.bonds = pre ++ b :: post)
    (h4 : b.order = 4) :
    drawMolAt cfg { mol with bonds := pre ++ { b with order := 2 } :: post } s =
      drawMolAt cfg mol s := by
  have hord : displayOrder ({ b with order := 2 } : BondR).order = displayOrder b.order := by
    simp [displayOrder, h4]
  have hlab : labelsOf cfg { mol with bonds := pre ++ { b with order := 2 } :: post } =
      labelsOf cfg mol := rfl
  have hpts : ptsOf cfg { mol with bonds := pre ++ { b with order := 2 } :: post } s =
      ptsOf cfg mol s := rfl
  show drawFP cfg (ptsOf cfg _ s) (labelsOf cfg _) (pre ++ { b with order := 2 } :: post) =
    drawFP cfg (ptsOf cfg mol s) (labelsOf cfg mol) mol.bonds
  rw [hb, hlab, hpts]
  apply drawFP_bonds_congr
  · unfold extentsWithLabelsAndBonds
    rw [List.foldl_append, List.foldl_append, List.foldl_cons, List.foldl_cons,
      extBondStep_congr _ _ b { b with order := 2 } rfl rfl hord]
  · intro oy ox
    rw [List.flatMap_append, List.flatMap_append, List.flatMap_cons, List.flatMap_cons,
      bondWriteOps_congr _ _ _ _ b { b with order := 2 } rfl rfl hord]

/-- Concrete instance of `c7_order4_renders_as_order2`: a two-atom
molecule whose single bond has order 4 draws identically with order 2. -/
theorem c7_order4_witness :
    drawMolAt defaultCfg
      { coords := [(0, 0), ((3 : ℚ) / 2, 0)], symbols := [['C'], ['C']],
        charges := [0, 0], bonds := [{ i := 0, j := 1, order := 2 }] } (4 / 3) =
    drawMolAt defaultCfg
      { coords := [(0, 0), ((3 : ℚ) / 2, 0)], symbols := [['C'], ['C']],
        charges := [0, 0], bonds := [{ i := 0, j := 1, order := 4 }] } (4 / 3) :=
  c7_order4_renders_as_order2 defaultCfg
    { coords := [(0, 0), ((3 : ℚ) / 2, 0)], symbols := [['C'], ['C']],
      charges := [0, 0], bonds := [{ i := 0, j := 1, order := 4 }] } (4 / 3)
    [] [] { i := 0, j := 1, order := 4 } rfl rfl

/-! ## Parse shape lemmas -/

theorem parse_ok_eq_body {mb : String} {mol : Mol}
    (hp : parseV2000Molblock mb = .ok mol) :
    ∃ na nb : ℤ, mol = parseBody (splitNl (normalizeNl mb.data)) na nb := by
  unfold parseV2000Molblock at hp
  split at hp
  · exact Except.noConfusion hp
  · split at hp
    · exact Except.noConfusion hp
    · split at hp
      · exact Except.noConfusion hp
      · exact ⟨_, _, (Except.ok.inj hp).symm⟩

theorem parseBody_lengths (lines : List (List Char)) (na nb : ℤ) :
    (parseBody lines na nb).coords.length = (parseBody lines na nb).symbols.length ∧
    (parseBody lines na nb).symbols.length = (parseBody lines na nb).charges.length := by
  simp only [parseBody, List.length_map, List.length_range]
  exact ⟨trivial, trivial⟩

/-! ## C10: the empty molecule renders to the empty string -/

theorem layoutLoop_nil_coords (bump : ℚ) (labels : List (List Char)) (fuel : ℕ) (s : ℚ) :
    layoutLoop bump [] labels fuel s = [] := by
  cases fuel with
  | zero => simp [layoutLoop, placeAtomsEvenGrid]
  | succ n => simp [layoutLoop, placeAtomsEvenGrid, labelsOverlap, labelsOverlapGo]

theorem rstrip_eq_nil_of_all_ws {l : List Char} (h : ∀ c ∈ l, jsIsWhitespace c = true) :
    rstrip l = [] := by
  unfold rstrip
  rw [List.dropWhile_eq_nil_iff.mpr fun c hc => h c (List.mem_reverse.mp hc)]
  rfl

/-- **C10** (confirmed).  For every input that parses with atom count
0 and bond count 0, the drawer returns the empty string, at every
configuration and scale: the extents stay at their sentinels, the
grid is empty or all-blank, and every row is stripped and dropped. -/
theorem c10_zero_atoms_empty_output (cfg : DrawCfg) (mb : String) (mol : Mol) (s : ℚ)
    (hp : parseV2000Molblock mb = .ok mol)
    (hc : mol.coords = []) (hb : mol.bonds = []) :
    drawMolAt cfg mol s = "" := by
  obtain ⟨na, nb, hmol⟩ := parse_ok_eq_body hp
  have hsym : mol.symbols = [] := by
    have h1 := (parseBody_lengths (splitNl (normalizeNl mb.data)) na nb).1
    rw [← hmol] at h1
    rw [← List.length_eq_zero]
    rw [← h1, hc]
    rfl
  have hlab : labelsOf cfg mol = [] := by simp [labelsOf, hsym]
  have hpts : ptsOf cfg mol s = [] := by
    unfold ptsOf
    rw [hc]
    exact layoutLoop_nil_coords _ _ _ _
  unfold drawMolAt
  rw [hpts, hlab, hb]
  have hgrid : gridFP cfg [] [] [] = emptyGrid := rfl
  have hrows : ∀ l ∈ rowsFP cfg [] [] [], isBlankLine l = true := by
    intro l hl
    unfold rowsFP at hl
    obtain ⟨r, _, hr⟩ := List.mem_map.mp hl
    have hall : rstrip
        ((List.range (widthFP cfg.pad (extentsWithLabelsAndBonds [] [] [])).toNat).map
          (fun (c : ℕ) => gridFP cfg [] [] [] (r : ℤ) (c : ℤ))) = [] := by
      apply rstrip_eq_nil_of_all_ws
      intro c hc'
      obtain ⟨x, _, hcc⟩ := List.mem_map.mp hc'
      rw [← hcc]
      rfl
    rw [← hr, hall]
    rfl
  unfold drawFP
  rw [show finalLinesFP cfg [] [] [] = [] from ?_]
  · rfl
  · unfold finalLinesFP
    rw [List.dropWhile_eq_nil_iff.mpr hrows]
    rfl

/-! ## List and whitespace lemmas for the serializer -/

theorem head?_dropWhile_not {α : Type} (p : α → Bool) :
    ∀ (l : List α) {a : α}, (l.dropWhile p).head? = some a → p a = false := by
  intro l
  induction l with
  | nil => intro a h; exact absurd h (by simp)
  | cons x xs ih =>
    intro a h
    rw [List.dropWhile_cons] at h
    by_cases hx : p x = true
    · exact ih (by simpa [hx] using h)
    · have hx' : p x = false := by simpa using hx
      simp [hx'] at h
      exact h ▸ hx'

theorem mem_of_mem_dropWhile {α : Type} {p : α → Bool} {a : α} {l : List α}
    (h : a ∈ l.dropWhile p) : a ∈ l :=
  (List.dropWhile_sublist p).mem h

theorem mem_of_mem_rstrip {c : Char} {l : List Char} (h : c ∈ rstrip l) : c ∈ l := by
  unfold rstrip at h
  exact List.mem_reverse.mp (mem_of_mem_dropWhile (List.mem_reverse.mp h))

theorem rstrip_getLast_not_ws {l : List Char} {c : Char}
    (h : (rstrip l).getLast? = some c) : jsIsWhitespace c = false := by
  unfold rstrip at h
  rw [List.getLast?_reverse] at h
  exact head?_dropWhile_not _ _ h

theorem mem_of_mem_jsTrim {c : Char} {l : List Char} (h : c ∈ jsTrim l) : c ∈ l := by
  unfold jsTrim at h
  exact mem_of_mem_dropWhile (List.mem_reverse.mp (mem_of_mem_dropWhile (List.mem_reverse.mp h)))

theorem mem_of_mem_jsSlice {c : Char} {l : List Char} {a b : ℕ} (h : c ∈ jsSlice l a b) :
    c ∈ l := by
  unfold jsSlice at h
  exact (List.take_sublist _ _).mem ((List.drop_sublist _ _).mem h)

theorem mem_of_mem_lineAt {c : Char} {lines : List (List Char)} {k : ℕ}
    (h : c ∈ lineAt lines k) : ∃ ln ∈ lines, c ∈ ln := by
  unfold lineAt at h
  by_cases hk : k < lines.length
  · rw [List.getD_eq_getElem _ _ hk] at h
    exact ⟨lines[k], List.getElem_mem hk, h⟩
  · rw [List.getD_eq_default _ _ (by omega)] at h
    exact absurd h (List.not_mem_nil c)

theorem splitNl_no_newline : ∀ (l : List Char), ∀ p ∈ splitNl l, '\n' ∉ p := by
  intro l
  induction l with
  | nil =>
    intro p hp
    simp only [splitNl, List.mem_singleton] at hp
    simp [hp]
  | cons c r ih =>
    intro p hp
    rw [splitNl] at hp
    split_ifs at hp with hc
    · rcases List.mem_cons.mp hp with h | h
      · simp [h]
      · exact ih p h
    · rcases hs : splitNl r with _ | ⟨h0, t⟩
      · rw [hs] at hp
        have hp' : p = [c] := by simpa using hp
        intro hn
        rw [hp'] at hn
        have hcn : '\n' = c := by simpa using hn
        exact hc hcn.symm
      · rw [hs] at hp
        rcases List.mem_cons.mp hp with h | h
        · intro hn
          rw [h] at hn
          rcases List.mem_cons.mp hn with h' | h'
          · exact hc h'.symm
          · exact ih h0 (hs ▸ List.mem_cons_self h0 t) h'
        · exact ih p (hs ▸ List.mem_cons_of_mem h0 h)

/-! ## Grid character classification -/

theorem setLine_char_cases (h w : ℤ) (g : Grid) (r0 c0 : ℤ) (ch : Char) (useUni : Bool)
    (r c : ℤ) :
    setLine h w g r0 c0 ch useUni r c = g r c ∨ setLine h w g r0 c0 ch useUni r c = ch ∨
    setLine h w g r0 c0 ch useUni r c = '┼' ∨ setLine h w g r0 c0 ch useUni r c = '+' := by
  unfold setLine updateCell
  by_cases hrc : r = r0 ∧ c = c0
  · split_ifs <;> simp [hrc]
  · split_ifs <;> simp [hrc]

theorem setAtom_char_cases (h w : ℤ) (g : Grid) (r0 c0 : ℤ) (ch : Char) (r c : ℤ) :
    setAtom h w g r0 c0 ch r c = g r c ∨ setAtom h w g r0 c0 ch r c = ch := by
  unfold setAtom updateCell
  by_cases hrc : r = r0 ∧ c = c0
  · split_ifs <;> simp [hrc]
  · split_ifs <;> simp [hrc]

theorem setLineFold_char_cases (h w : ℤ) (useUni : Bool) (ops : List WriteOp) :
    ∀ (g : Grid) (r c : ℤ),
      setLineFold h w useUni g ops r c = g r c ∨
      setLineFold h w useUni g ops r c = '┼' ∨
      setLineFold h w useUni g ops r c = '+' ∨
      ∃ op ∈ ops, setLineFold h w useUni g ops r c = op.2 := by
  induction ops with
  | nil => intro g r c; exact Or.inl rfl
  | cons op rest ih =>
    intro g r c
    have hstep := setLine_char_cases h w g op.1.1 op.1.2 op.2 useUni r c
    have hrec := ih (setLine h w g op.1.1 op.1.2 op.2 useUni) r c
    have hfold : setLineFold h w useUni g (op :: rest) =
        setLineFold h w useUni (setLine h w g op.1.1 op.1.2 op.2 useUni) rest := rfl
    rw [hfold]
    rcases hrec with h1 | h1 | h1 | ⟨op', hop', h1⟩
    · rw [h1]
      rcases hstep with h2 | h2 | h2 | h2
      · exact Or.inl h2
      · exact Or.inr (Or.inr (Or.inr ⟨op, List.mem_cons_self op rest, h2⟩))
      · exact Or.inr (Or.inl h2)
      · exact Or.inr (Or.inr (Or.inl h2))
    · exact Or.inr (Or.inl h1)
    · exact Or.inr (Or.inr (Or.inl h1))
    · exact Or.inr (Or.inr (Or.inr ⟨op', List.mem_cons_of_mem op hop', h1⟩))

theorem setAtomFold_char_cases (h w : ℤ) (ops : List WriteOp) :
    ∀ (g : Grid) (r c : ℤ),
      setAtomFold h w g ops r c = g r c ∨ ∃ op ∈ ops, setAtomFold h w g ops r c = op.2 := by
  induction ops with
  | nil => intro g r c; exact Or.inl rfl
  | cons op rest ih =>
    intro g r c
    have hstep := setAtom_char_cases h w g op.1.1 op.1.2 op.2 r c
    have hrec := ih (setAtom h w g op.1.1 op.1.2 op.2) r c
    have hfold : setAtomFold h w g (op :: rest) =
        setAtomFold h w (setAtom h w g op.1.1 op.1.2 op.2) rest := rfl
    rw [hfold]
    rcases hrec with h1 | ⟨op', hop', h1⟩
    · rw [h1]
      rcases hstep with h2 | h2
      · exact Or.inl h2
      · exact Or.inr ⟨op, List.mem_cons_self op rest, h2⟩
    · exact Or.inr ⟨op', List.mem_cons_of_mem op hop', h1⟩

theorem gridFP_char_cases (cfg : DrawCfg) (pts : List (ℤ × ℤ)) (labels : List (List Char))
    (bonds : List BondR) (r c : ℤ) :
    gridFP cfg pts labels bonds r c = ' ' ∨
    gridFP cfg pts labels bonds r c = '┼' ∨
    gridFP cfg pts labels bonds r c = '+' ∨
    (∃ op ∈ bondOpsFP cfg pts labels bonds, gridFP cfg pts labels bonds r c = op.2) ∨
    (∃ op ∈ atomOpsFP cfg pts labels bonds, gridFP cfg pts labels bonds r c = op.2) := by
  unfold gridFP
  rcases setAtomFold_char_cases _ _ (atomOpsFP cfg pts labels bonds)
      (setLineFold _ _ (useUniOf cfg) emptyGrid (bondOpsFP cfg pts labels bonds)) r c with
    h1 | ⟨op, hop, h1⟩
  · rw [h1]
    rcases setLineFold_char_cases _ _ (useUniOf cfg) (bondOpsFP cfg pts labels bonds)
        emptyGrid r c with h2 | h2 | h2 | ⟨op, hop, h2⟩
    · exact Or.inl h2
    · exact Or.inr (Or.inl h2)
    · exact Or.inr (Or.inr (Or.inl h2))
    · exact Or.inr (Or.inr (Or.inr (Or.inl ⟨op, hop, h2⟩)))
  · exact Or.inr (Or.inr (Or.inr (Or.inr ⟨op, hop, h1⟩)))

/-! ## Write-op character classification -/

theorem bondChar_cases (cs : CharSetM) (p q : ℤ × ℤ) (o : ℤ) :
    bondChar cs p q o = cs.h_single ∨ bondChar cs p q o = cs.v_single ∨
    bondChar cs p q o = cs.slash ∨ bondChar cs p q o = cs.backslash ∨
    bondChar cs p q o = cs.h_double ∨ bondChar cs p q o = cs.v_double ∨
    bondChar cs p q o = cs.h_triple := by
  unfold bondChar
  split_ifs <;> simp

theorem bondOp_char_eq (cs : CharSetM) (pts : List (ℤ × ℤ)) (oy ox : ℤ) (b : BondR)
    {op : WriteOp} (h : op ∈ bondWriteOps cs pts oy ox b) :
    op.2 = bondChar cs (getPt pts b.i) (getPt pts b.j) (displayOrder b.order) := by
  simp only [bondWriteOps] at h
  split_ifs at h <;> simp at h <;>
    first
      | (rcases h with h | h | h <;> simp [h])
      | (rcases h with h | h <;> simp [h])
      | simp [h]

theorem atomOp_char_mem (cfg : DrawCfg) (pts : List (ℤ × ℤ)) (labels : List (List Char))
    (bonds : List BondR) {op : WriteOp} (h : op ∈ atomOpsFP cfg pts labels bonds) :
    ∃ lab ∈ labels, op.2 ∈ lab := by
  unfold atomOpsFP at h
  obtain ⟨pl, hpl, hop⟩ := List.mem_flatMap.mp h
  unfold atomWriteOps at hop
  obtain ⟨k, hk, hopk⟩ := List.mem_map.mp hop
  have hch : op.2 = pl.2.getD k ' ' := by rw [← hopk]
  unfold pairsOf at hpl
  obtain ⟨i, hi, hpi⟩ := List.mem_map.mp hpl
  have hlab : pl.2 = labels.getD i [] := by rw [← hpi]
  have hklen : k < pl.2.length := List.mem_range.mp hk
  by_cases hil : i < labels.length
  · refine ⟨labels.getD i [], ?_, ?_⟩
    · rw [List.getD_eq_getElem _ _ hil]
      exact List.getElem_mem hil
    · rw [← hlab, hch, List.getD_eq_getElem _ _ hklen]
      exact List.getElem_mem hklen
  · exfalso
    rw [hlab, List.getD_eq_default _ _ (by omega)] at hklen
    exact absurd hklen (by simp)

/-! ## Label and parsed-symbol characters -/

theorem natToChars_digit :
    ∀ n : ℕ, ∀ c ∈ natToChars n, isDigitChar c = true := by
  have hbase : ∀ m : ℕ, m < 10 → isDigitChar (Char.ofNat (48 + m)) = true := by decide
  intro n
  induction n using Nat.strong_induction_on with
  | _ n ih =>
    intro c hc
    rw [natToChars] at hc
    split_ifs at hc with h
    · have : c = Char.ofNat (48 + n) := by simpa using hc
      rw [this]
      exact hbase n h
    · rcases List.mem_append.mp hc with h1 | h1
      · exact ih (n / 10) (Nat.div_lt_self (by omega) (by omega)) c h1
      · have : c = Char.ofNat (48 + n % 10) := by simpa using h1
        rw [this]
        exact hbase (n % 10) (Nat.mod_lt _ (by omega))

theorem mkLabel_char_cases (cfg : DrawCfg) (sym : List Char) (q : ℤ) {c : Char}
    (h : c ∈ mkLabel cfg sym q) :
    c ∈ sym ∨ c = 'C' ∨ c = '+' ∨ c = '-' ∨ isDigitChar c = true := by
  have hd := natToChars_digit q.natAbs
  simp only [mkLabel] at h
  split_ifs at h <;>
    (try simp only [List.mem_append, List.mem_singleton, List.mem_cons, List.not_mem_nil,
      or_false] at h) <;>
    tauto

/-! ## Parsed symbols and labels contain no newline -/

theorem parseBody_symbol_facts (lines : List (List Char)) (na nb : ℤ) :
    ∀ sym ∈ (parseBody lines na nb).symbols,
      sym ≠ [] ∧ ∀ c ∈ sym, c = 'C' ∨ ∃ ln ∈ lines, c ∈ ln := by
  intro sym hsym
  simp only [parseBody, List.mem_map, List.map_map, Function.comp] at hsym
  obtain ⟨t, _, hsymt⟩ := hsym
  simp only [parseAtomLine] at hsymt
  split_ifs at hsymt with htrim
  · refine ⟨by rw [← hsymt]; simp, ?_⟩
    intro c hc
    rw [← hsymt] at hc
    exact Or.inl (by simpa using hc)
  · refine ⟨by rw [← hsymt]; exact htrim, ?_⟩
    intro c hc
    rw [← hsymt] at hc
    exact Or.inr (mem_of_mem_lineAt (mem_of_mem_jsSlice (mem_of_mem_jsTrim hc)))

theorem parse_symbol_no_newline {mb : String} {mol : Mol}
    (hp : parseV2000Molblock mb = .ok mol) :
    ∀ sym ∈ mol.symbols, '\n' ∉ sym := by
  obtain ⟨na, nb, hmol⟩ := parse_ok_eq_body hp
  intro sym hsym hn
  rw [hmol] at hsym
  rcases (parseBody_symbol_facts _ na nb sym hsym).2 '\n' hn with h | ⟨ln, hln, hcln⟩
  · exact absurd h (by decide)
  · exact splitNl_no_newline _ ln hln hcln

theorem labelsOf_no_newline (cfg : DrawCfg) {mb : String} {mol : Mol}
    (hp : parseV2000Molblock mb = .ok mol) :
    ∀ lab ∈ labelsOf cfg mol, '\n' ∉ lab := by
  intro lab hlab hn
  unfold labelsOf at hlab
  obtain ⟨sq, hsq, hlabeq⟩ := List.mem_map.mp hlab
  rw [← hlabeq] at hn
  rcases mkLabel_char_cases cfg sq.1 sq.2 hn with h | h | h | h | h
  · exact parse_symbol_no_newline hp sq.1 (List.of_mem_zip hsq).1 h
  · exact absurd h (by decide)
  · exact absurd h (by decide)
  · exact absurd h (by decide)
  · exact absurd h (by decide)

theorem gridOf_no_newline (cfg : DrawCfg) {mb : String} {mol : Mol} (s : ℚ)
    (hp : parseV2000Molblock mb = .ok mol) (r c : ℤ) :
    gridOf cfg mol s r c ≠ '\n' := by
  intro hgc
  unfold gridOf at hgc
  have hcs : csOf cfg = unicodeCS ∨ csOf cfg = asciiCS := by
    unfold csOf; split_ifs <;> simp
  rcases gridFP_char_cases cfg (ptsOf cfg mol s) (labelsOf cfg mol) mol.bonds r c with
    h | h | h | ⟨op, hop, h⟩ | ⟨op, hop, h⟩
  · rw [hgc] at h; exact absurd h (by decide)
  · rw [hgc] at h; exact absurd h (by decide)
  · rw [hgc] at h; exact absurd h (by decide)
  · unfold bondOpsFP at hop
    obtain ⟨b, _, hopb⟩ := List.mem_flatMap.mp hop
    have hbce := bondOp_char_eq (csOf cfg) _ _ _ b hopb
    have hch : bondChar (csOf cfg) (getPt (ptsOf cfg mol s) b.i) (getPt (ptsOf cfg mol s) b.j)
        (displayOrder b.order) = '\n' := by rw [← hbce, ← h, hgc]
    rcases bondChar_cases (csOf cfg) (getPt (ptsOf cfg mol s) b.i)
        (getPt (ptsOf cfg mol s) b.j) (displayOrder b.order) with
      hbc | hbc | hbc | hbc | hbc | hbc | hbc <;>
      rw [hch] at hbc <;>
      rcases hcs with hcs | hcs <;>
      rw [hcs] at hbc <;>
      exact absurd hbc (by decide)
  · obtain ⟨lab, hlab, hmem⟩ := atomOp_char_mem cfg _ _ _ hop
    rw [← h, hgc] at hmem
    exact labelsOf_no_newline cfg hp lab hlab hmem

/-! ## Head and last of the blank-trimmed line list -/

theorem trim_blank_head {L : List (List Char)} {a : List Char}
    (h : (((L.dropWhile isBlankLine).reverse.dropWhile isBlankLine).reverse).head? = some a) :
    isBlankLine a = false := by
  have hpre : (((L.dropWhile isBlankLine).reverse.dropWhile isBlankLine).reverse) <+:
      L.dropWhile isBlankLine := by
    conv_rhs => rw [← List.reverse_reverse (L.dropWhile isBlankLine)]
    exact List.reverse_prefix.mpr (List.dropWhile_suffix _)
  obtain ⟨t, ht⟩ := hpre
  cases htrim : ((L.dropWhile isBlankLine).reverse.dropWhile isBlankLine).reverse with
  | nil => rw [htrim] at h; exact absurd h (by simp)
  | cons a0 rest =>
    rw [htrim] at h ht
    have ha0 : a0 = a := by simpa using h
    have hh : (L.dropWhile isBlankLine).head? = some a0 := by rw [← ht]; rfl
    exact ha0 ▸ head?_dropWhile_not _ _ hh

theorem trim_blank_last {L : List (List Char)} {a : List Char}
    (h : (((L.dropWhile isBlankLine).reverse.dropWhile isBlankLine).reverse).getLast? =
      some a) :
    isBlankLine a = false := by
  rw [List.getLast?_reverse] at h
  exact head?_dropWhile_not _ _ h

/-! ## C6: output format -/

/-- **C6** (confirmed).  For every successfully parsed molecule, at
every configuration and scale, the drawer's output is the final line
list joined by single newlines (with no terminating newline); no
final line ends in whitespace; no final line contains a newline (so
the decomposition into rows is exactly the line list); and the first
and last final lines, when they exist, are not all-blank. -/
theorem c6_output_format (cfg : DrawCfg) (mb : String) (mol : Mol) (s : ℚ)
    (hp : parseV2000Molblock mb = .ok mol) :
    drawMolAt cfg mol s =
      String.intercalate "\n" ((finalLinesOf cfg mol s).map fun l => String.mk l) ∧
    (∀ l ∈ finalLinesOf cfg mol s, ∀ c : Char, l.getLast? = some c →
      jsIsWhitespace c = false) ∧
    (∀ l ∈ finalLinesOf cfg mol s, '\n' ∉ l) ∧
    (∀ a, (finalLinesOf cfg mol s).head? = some a → isBlankLine a = false) ∧
    (∀ a, (finalLinesOf cfg mol s).getLast? = some a → isBlankLine a = false) := by
  have hmemrows : ∀ l ∈ finalLinesOf cfg mol s, l ∈ rowsOf cfg mol s := by
    intro l hl
    unfold finalLinesOf finalLinesFP at hl
    have h1 := mem_of_mem_dropWhile (List.mem_reverse.mp hl)
    exact mem_of_mem_dropWhile (List.mem_reverse.mp h1)
  refine ⟨rfl, ?_, ?_, ?_, ?_⟩
  · intro l hl c hc
    have hl' := hmemrows l hl
    unfold rowsOf rowsFP at hl'
    obtain ⟨r, _, hr⟩ := List.mem_map.mp hl'
    rw [← hr] at hc
    exact rstrip_getLast_not_ws hc
  · intro l hl hn
    have hl' := hmemrows l hl
    unfold rowsOf rowsFP at hl'
    obtain ⟨r, _, hr⟩ := List.mem_map.mp hl'
    rw [← hr] at hn
    obtain ⟨cc, _, hcg⟩ := List.mem_map.mp (mem_of_mem_rstrip hn)
    exact gridOf_no_newline cfg s hp (r : ℤ) (cc : ℤ) (by exact hcg)
  · intro a ha
    exact trim_blank_head ha
  · intro a ha
    exact trim_blank_last ha

/-- Concrete instance of `c6_output_format` at the single-atom input. -/
theorem c6_output_format_witness :
    drawMolAt defaultCfg ⟨[(0, 0)], [['C']], [0], []⟩ (4 / 3) =
      String.intercalate "\n"
        ((finalLinesOf defaultCfg ⟨[(0, 0)], [['C']], [0], []⟩ (4 / 3)).map
          fun l => String.mk l) :=
  (c6_output_format defaultCfg exOneAtomMb ⟨[(0, 0)], [['C']], [0], []⟩ (4 / 3)
    (by decide)).1

/-! ## Extent bounds -/

theorem extAtomFold_mono (L : List ((ℤ × ℤ) × List Char)) : ∀ st : MolExt,
    (L.foldl extAtomStep st).minx ≤ st.minx ∧ (L.foldl extAtomStep st).miny ≤ st.miny ∧
    st.maxx ≤ (L.foldl extAtomStep st).maxx ∧ st.maxy ≤ (L.foldl extAtomStep st).maxy := by
  induction L with
  | nil => intro st; exact ⟨le_refl _, le_refl _, le_refl _, le_refl _⟩
  | cons pl rest ih =>
    intro st
    have h1 := ih (extAtomStep st pl)
    have h2 : (extAtomStep st pl).minx ≤ st.minx ∧ (extAtomStep st pl).miny ≤ st.miny ∧
        st.maxx ≤ (extAtomStep st pl).maxx ∧ st.maxy ≤ (extAtomStep st pl).maxy := by
      unfold extAtomStep
      exact ⟨min_le_left _ _, min_le_left _ _, le_max_left _ _, le_max_left _ _⟩
    exact ⟨le_trans h1.1 h2.1, le_trans h1.2.1 h2.2.1,
      le_trans h2.2.2.1 h1.2.2.1, le_trans h2.2.2.2 h1.2.2.2⟩

theorem extAtomFold_mem (L : List ((ℤ × ℤ) × List Char)) {pl : (ℤ × ℤ) × List Char}
    (hpl : pl ∈ L) : ∀ st : MolExt,
    (L.foldl extAtomStep st).minx ≤ labelStart pl.1.1 pl.2 ∧
    (L.foldl extAtomStep st).miny ≤ pl.1.2 ∧
    labelStart pl.1.1 pl.2 + pl.2.length - 1 ≤ (L.foldl extAtomStep st).maxx ∧
    pl.1.2 ≤ (L.foldl extAtomStep st).maxy := by
  induction L with
  | nil => exact absurd hpl (List.not_mem_nil pl)
  | cons x rest ih =>
    intro st
    rcases List.mem_cons.mp hpl with h | h
    · subst h
      have hmono := extAtomFold_mono rest (extAtomStep st pl)
      have hstep : (extAtomStep st pl).minx ≤ labelStart pl.1.1 pl.2 ∧
          (extAtomStep st pl).miny ≤ pl.1.2 ∧
          labelStart pl.1.1 pl.2 + pl.2.length - 1 ≤ (extAtomStep st pl).maxx ∧
          pl.1.2 ≤ (extAtomStep st pl).maxy := by
        unfold extAtomStep
        exact ⟨min_le_right _ _, min_le_right _ _, le_max_right _ _, le_max_right _ _⟩
      exact ⟨le_trans hmono.1 hstep.1, le_trans hmono.2.1 hstep.2.1,
        le_trans hstep.2.2.1 hmono.2.2.1, le_trans hstep.2.2.2 hmono.2.2.2⟩
    · exact ih h (extAtomStep st x)

theorem extBondFold_mono (pts : List (ℤ × ℤ)) (bonds : List BondR) : ∀ st : MolExt,
    (bonds.foldl (extBondStep pts) st).minx ≤ st.minx ∧
    (bonds.foldl (extBondStep pts) st).miny ≤ st.miny ∧
    st.maxx ≤ (bonds.foldl (extBondStep pts) st).maxx ∧
    st.maxy ≤ (bonds.foldl (extBondStep pts) st).maxy := by
  induction bonds with
  | nil => intro st; exact ⟨le_refl _, le_refl _, le_refl _, le_refl _⟩
  | cons b rest ih =>
    intro st
    have h1 := ih (extBondStep pts st b)
    have h2 : (extBondStep pts st b).minx ≤ st.minx ∧ (extBondStep pts st b).miny ≤ st.miny ∧
        st.maxx ≤ (extBondStep pts st b).maxx ∧ st.maxy ≤ (extBondStep pts st b).maxy := by
      unfold extBondStep
      exact ⟨min_le_left _ _, min_le_left _ _, le_max_left _ _, le_max_left _ _⟩
    exact ⟨le_trans h1.1 h2.1, le_trans h1.2.1 h2.2.1,
      le_trans h2.2.2.1 h1.2.2.1, le_trans h2.2.2.2 h1.2.2.2⟩

theorem extBondFold_mem (pts : List (ℤ × ℤ)) (bonds : List BondR) {b : BondR}
    (hb : b ∈ bonds) : ∀ st : MolExt,
    (bonds.foldl (extBondStep pts) st).minx ≤ (bondMid pts b).1 - bondExtra pts b ∧
    (bonds.foldl (extBondStep pts) st).miny ≤ (bondMid pts b).2 - bondExtra pts b ∧
    (bondMid pts b).1 + bondExtra pts b ≤ (bonds.foldl (extBondStep pts) st).maxx ∧
    (bondMid pts b).2 + bondExtra pts b ≤ (bonds.foldl (extBondStep pts) st).maxy := by
  induction bonds with
  | nil => exact absurd hb (List.not_mem_nil b)
  | cons x rest ih =>
    intro st
    rcases List.mem_cons.mp hb with h | h
    · subst h
      have hmono := extBondFold_mono pts rest (extBondStep pts st b)
      have hstep : (extBondStep pts st b).minx ≤ (bondMid pts b).1 - bondExtra pts b ∧
          (extBondStep pts st b).miny ≤ (bondMid pts b).2 - bondExtra pts b ∧
          (bondMid pts b).1 + bondExtra pts b ≤ (extBondStep pts st b).maxx ∧
          (bondMid pts b).2 + bondExtra pts b ≤ (extBondStep pts st b).maxy := by
        unfold extBondStep
        exact ⟨min_le_right _ _, min_le_right _ _, le_max_right _ _, le_max_right _ _⟩
      exact ⟨le_trans hmono.1 hstep.1, le_trans hmono.2.1 hstep.2.1,
        le_trans hstep.2.2.1 hmono.2.2.1, le_trans hstep.2.2.2 hmono.2.2.2⟩
    · exact ih h (extBondStep pts st x)

theorem ext_atom_bounds (pts : List (ℤ × ℤ)) (labels : List (List Char)) (bonds : List BondR)
    {pl : (ℤ × ℤ) × List Char} (hpl : pl ∈ pairsOf pts labels) :
    (extentsWithLabelsAndBonds pts labels bonds).minx ≤ labelStart pl.1.1 pl.2 ∧
    (extentsWithLabelsAndBonds pts labels bonds).miny ≤ pl.1.2 ∧
    labelStart pl.1.1 pl.2 + pl.2.length - 1 ≤ (extentsWithLabelsAndBonds pts labels bonds).maxx ∧
    pl.1.2 ≤ (extentsWithLabelsAndBonds pts labels bonds).maxy := by
  unfold extentsWithLabelsAndBonds
  have ha := extAtomFold_mem (pairsOf pts labels) hpl extInit
  have hb := extBondFold_mono pts bonds ((pairsOf pts labels).foldl extAtomStep extInit)
  exact ⟨le_trans hb.1 ha.1, le_trans hb.2.1 ha.2.1,
    le_trans ha.2.2.1 hb.2.2.1, le_trans ha.2.2.2 hb.2.2.2⟩

theorem ext_bond_bounds (pts : List (ℤ × ℤ)) (labels : List (List Char)) (bonds : List BondR)
    {b : BondR} (hb : b ∈ bonds) :
    (extentsWithLabelsAndBonds pts labels bonds).minx ≤ (bondMid pts b).1 - bondExtra pts b ∧
    (extentsWithLabelsAndBonds pts labels bonds).miny ≤ (bondMid pts b).2 - bondExtra pts b ∧
    (bondMid pts b).1 + bondExtra pts b ≤ (extentsWithLabelsAndBonds pts labels bonds).maxx ∧
    (bondMid pts b).2 + bondExtra pts b ≤ (extentsWithLabelsAndBonds pts labels bonds).maxy := by
  unfold extentsWithLabelsAndBonds
  exact extBondFold_mem pts bonds hb _

/-! ## Every write targets a cell inside the grid -/

theorem bondExtra_nonneg (pts : List (ℤ × ℤ)) (b : BondR) : 0 ≤ bondExtra pts b := by
  simp only [bondExtra]
  split_ifs <;> omega

theorem bondOps_inbounds (cfg : DrawCfg) (pts : List (ℤ × ℤ)) (labels : List (List Char))
    (bonds : List BondR) (hpad : 0 ≤ cfg.pad) :
    ∀ op ∈ bondOpsFP cfg pts labels bonds,
      0 ≤ op.1.1 ∧ op.1.1 < heightFP cfg.pad (extentsWithLabelsAndBonds pts labels bonds) ∧
      0 ≤ op.1.2 ∧ op.1.2 < widthFP cfg.pad (extentsWithLabelsAndBonds pts labels bonds) := by
  intro op hop
  unfold bondOpsFP at hop
  obtain ⟨b, hb, hopb⟩ := List.mem_flatMap.mp hop
  have hext := ext_bond_bounds pts labels bonds hb
  have hexnn := bondExtra_nonneg pts b
  simp only [bondWriteOps] at hopb
  split_ifs at hopb with h1 h2 h3 h4
  all_goals
    (try have hex1 : bondExtra pts b = 1 := by simp only [bondExtra]; rw [if_pos h1])
  · simp only [List.mem_append, List.mem_singleton] at hopb
    rcases hopb with (h | h) | h <;> rw [h] <;>
      simp only [heightFP, widthFP, oyFP, oxFP] at hext ⊢ <;> omega
  · simp only [List.mem_append, List.mem_singleton, List.not_mem_nil, or_false] at hopb
    rcases hopb with h | h <;> rw [h] <;>
      simp only [heightFP, widthFP, oyFP, oxFP] at hext ⊢ <;> omega
  · simp only [List.mem_append, List.mem_singleton] at hopb
    rcases hopb with (h | h) | h <;> rw [h] <;>
      simp only [heightFP, widthFP, oyFP, oxFP] at hext ⊢ <;> omega
  · simp only [List.mem_append, List.mem_singleton, List.not_mem_nil, or_false] at hopb
    rcases hopb with h | h <;> rw [h] <;>
      simp only [heightFP, widthFP, oyFP, oxFP] at hext ⊢ <;> omega
  · simp only [List.mem_singleton] at hopb
    rw [hopb]
    simp only [heightFP, widthFP, oyFP, oxFP] at hext ⊢
    omega

theorem atomOps_inbounds (cfg : DrawCfg) (pts : List (ℤ × ℤ)) (labels : List (List Char))
    (bonds : List BondR) (hpad : 0 ≤ cfg.pad) :
    ∀ op ∈ atomOpsFP cfg pts labels bonds,
      0 ≤ op.1.1 ∧ op.1.1 < heightFP cfg.pad (extentsWithLabelsAndBonds pts labels bonds) ∧
      0 ≤ op.1.2 ∧ op.1.2 < widthFP cfg.pad (extentsWithLabelsAndBonds pts labels bonds) := by
  intro op hop
  unfold atomOpsFP at hop
  obtain ⟨pl, hpl, hopl⟩ := List.mem_flatMap.mp hop
  have hext := ext_atom_bounds pts labels bonds hpl
  unfold atomWriteOps at hopl
  obtain ⟨k, hk, hopk⟩ := List.mem_map.mp hopl
  have hklen : k < pl.2.length := List.mem_range.mp hk
  rw [← hopk]
  simp only [heightFP, widthFP, oyFP, oxFP] at hext ⊢
  omega

/-! ## C9: the out-of-bounds guards are never the branch taken -/

/-- **C9** (confirmed).  For every parsed molecule whose bond
endpoint indices lie within `[0, atomCount)` and every non-negative
padding, every cell write of the draw — bond midpoint glyphs, the
extra parallel strokes of diagonal double/triple bonds, junction
glyphs (written at the same cells as the midpoint glyphs), and every
label character — targets a row in `[0, height)` and a column in
`[0, width)`, so the out-of-bounds guard clauses of `setLine` and
`setAtom` never fire. -/
theorem c9_writes_in_bounds (cfg : DrawCfg) (mb : String) (mol : Mol) (s : ℚ)
    (hp : parseV2000Molblock mb = .ok mol) (hpad : 0 ≤ cfg.pad)
    (hbonds : ∀ b ∈ mol.bonds, 0 ≤ b.i ∧ b.i < (mol.coords.length : ℤ) ∧
      0 ≤ b.j ∧ b.j < (mol.coords.length : ℤ)) :
    ∀ op ∈ bondOpsOf cfg mol s ++ atomOpsOf cfg mol s,
      0 ≤ op.1.1 ∧ op.1.1 < heightOf cfg mol s ∧
      0 ≤ op.1.2 ∧ op.1.2 < widthOf cfg mol s := by
  intro op hop
  rcases List.mem_append.mp hop with h | h
  · exact bondOps_inbounds cfg _ _ _ hpad op h
  · exact atomOps_inbounds cfg _ _ _ hpad op h

/-- Concrete instance of `c9_writes_in_bounds`: the one-atom
self-bond molecule at scale 1 — every write of its draw is in
bounds. -/
theorem c9_writes_in_bounds_witness :
    ((bondOpsOf defaultCfg ⟨[(0, 0)], [['C']], [0], [⟨0, 0, 1⟩]⟩ 1 ++
        atomOpsOf defaultCfg ⟨[(0, 0)], [['C']], [0], [⟨0, 0, 1⟩]⟩ 1).all fun op =>
      decide (0 ≤ op.1.1 ∧
        op.1.1 < heightOf defaultCfg ⟨[(0, 0)], [['C']], [0], [⟨0, 0, 1⟩]⟩ 1 ∧
        0 ≤ op.1.2 ∧
        op.1.2 < widthOf defaultCfg ⟨[(0, 0)], [['C']], [0], [⟨0, 0, 1⟩]⟩ 1)) = true :=
  List.all_eq_true.mpr fun op hop =>
    decide_eq_true
      (c9_writes_in_bounds defaultCfg exSelfBondMb ⟨[(0, 0)], [['C']], [0], [⟨0, 0, 1⟩]⟩ 1
        (by decide) (by decide) (by decide) op hop)

/-! ## Last-write-wins evaluation of the atom phase -/

theorem updateCell_eval (g : Grid) (r0 c0 : ℤ) (ch : Char) (r c : ℤ) :
    updateCell g r0 c0 ch r c = if r = r0 ∧ c = c0 then ch else g r c := rfl

theorem setAtomFold_eval (h w : ℤ) (ops : List WriteOp) :
    ∀ (g : Grid) (r c : ℤ), 0 ≤ r → r < h → 0 ≤ c → c < w →
    setAtomFold h w g ops r c =
      ((ops.filter fun op => decide (op.1.1 = r ∧ op.1.2 = c)).getLast?).elim (g r c)
        Prod.snd := by
  induction ops with
  | nil => intro g r c _ _ _ _; rfl
  | cons op rest ih =>
    intro g r c hr0 hrh hc0 hcw
    have hfold : setAtomFold h w g (op :: rest) =
        setAtomFold h w (setAtom h w g op.1.1 op.1.2 op.2) rest := rfl
    rw [hfold, ih _ r c hr0 hrh hc0 hcw]
    by_cases hpos : op.1.1 = r ∧ op.1.2 = c
    · have hval : setAtom h w g op.1.1 op.1.2 op.2 r c = op.2 := by
        simp only [setAtom]
        rw [if_neg (by omega), updateCell_eval,
          if_pos ⟨hpos.1.symm, hpos.2.symm⟩]
      rw [hval, List.filter_cons, if_pos (by simpa using hpos)]
      cases hL : rest.filter fun op => decide (op.1.1 = r ∧ op.1.2 = c) with
      | nil => simp
      | cons y ys =>
        rw [List.getLast?_cons_cons,
          List.getLast?_eq_getLast (y :: ys) (by simp)]
        rfl
    · have hval : setAtom h w g op.1.1 op.1.2 op.2 r c = g r c := by
        simp only [setAtom]
        split_ifs with h1
        · rfl
        · rw [updateCell_eval, if_neg (fun hrc => hpos ⟨hrc.1.symm, hrc.2.symm⟩)]
      rw [hval, List.filter_cons, if_neg (by simpa using hpos)]

theorem filter_eq_nil_of_false {p : WriteOp → Bool} :
    ∀ (l : List WriteOp), (∀ op ∈ l, p op = false) → l.filter p = [] := by
  intro l h
  induction l with
  | nil => rfl
  | cons x xs ih =>
    rw [List.filter_cons, if_neg (by rw [h x (List.mem_cons_self x xs)]; simp)]
    exact ih fun op hop => h op (List.mem_cons_of_mem x hop)

/-! ## C1: draw order and label-cell content -/

/-- **C1** (amended).  Bonds are drawn first through `setLine`
(blank-cell writes, junction on line-over-line, otherwise no-op) and
atom labels second through `setAtom` (unconditional overwrite), so no
bond glyph ever replaces a label character.  What the original claim
misses is that a *later atom's label* can overwrite an earlier one's
(residual label overlap is accepted by the layout loop): the label
character of atom `i` appears at its centered cell provided no later
atom's label covers that cell — the hypothesis `hnl` — and in that
case the final grid holds exactly that character. -/
theorem c1_label_cell_content (cfg : DrawCfg) (mb : String) (mol : Mol) (s : ℚ)
    (hp : parseV2000Molblock mb = .ok mol) (hpad : 0 ≤ cfg.pad) (i k : ℕ)
    (hi : i < (ptsOf cfg mol s).length)
    (hk : k < (atomLabel cfg mol i).length)
    (hnl : ∀ j : ℕ, i < j → j < (ptsOf cfg mol s).length →
      ((ptsOf cfg mol s).getD j (0, 0)).2 ≠ ((ptsOf cfg mol s).getD i (0, 0)).2 ∨
      labelStart ((ptsOf cfg mol s).getD i (0, 0)).1 (atomLabel cfg mol i) + (k : ℤ) <
        labelStart ((ptsOf cfg mol s).getD j (0, 0)).1 (atomLabel cfg mol j) ∨
      labelStart ((ptsOf cfg mol s).getD j (0, 0)).1 (atomLabel cfg mol j) +
          ((atomLabel cfg mol j).length : ℤ) ≤
        labelStart ((ptsOf cfg mol s).getD i (0, 0)).1 (atomLabel cfg mol i) + (k : ℤ)) :
    gridOf cfg mol s (atomRow cfg mol s i) (atomColStart cfg mol s i + (k : ℤ)) =
      (atomLabel cfg mol i).getD k ' ' := by
  unfold atomRow atomColStart oyOf oxOf extOf
  unfold atomLabel at hk hnl ⊢
  unfold gridOf gridFP
  -- the write op of atom `i`'s `k`-th label character
  have hmemPi : ((ptsOf cfg mol s).getD i (0, 0), (labelsOf cfg mol).getD i []) ∈
      pairsOf (ptsOf cfg mol s) (labelsOf cfg mol) := by
    unfold pairsOf
    exact List.mem_map.mpr ⟨i, List.mem_range.mpr hi, rfl⟩
  have hmemop :
      (((((ptsOf cfg mol s).getD i (0, 0)).2 +
          oyFP cfg.pad (extentsWithLabelsAndBonds (ptsOf cfg mol s) (labelsOf cfg mol)
            mol.bonds),
        labelStart ((ptsOf cfg mol s).getD i (0, 0)).1 ((labelsOf cfg mol).getD i []) +
          oxFP cfg.pad (extentsWithLabelsAndBonds (ptsOf cfg mol s) (labelsOf cfg mol)
            mol.bonds) + (k : ℤ)),
        ((labelsOf cfg mol).getD i []).getD k ' ') : WriteOp) ∈
      atomOpsFP cfg (ptsOf cfg mol s) (labelsOf cfg mol) mol.bonds := by
    unfold atomOpsFP
    refine List.mem_flatMap.mpr ⟨_, hmemPi, ?_⟩
    unfold atomWriteOps
    exact List.mem_map.mpr ⟨k, List.mem_range.mpr hk, rfl⟩
  have hin := atomOps_inbounds cfg (ptsOf cfg mol s) (labelsOf cfg mol) mol.bonds hpad _
    hmemop
  dsimp only at hin
  rw [setAtomFold_eval _ _ _ _ _ _ hin.1 hin.2.1 hin.2.2.1 hin.2.2.2]
  -- split the op list at atom `i` and character `k`
  have hnlen : (ptsOf cfg mol s).length = (i + 1) + ((ptsOf cfg mol s).length - (i + 1)) := by
    omega
  have hpair : pairsOf (ptsOf cfg mol s) (labelsOf cfg mol) =
      ((List.range i).map fun j =>
        ((ptsOf cfg mol s).getD j (0, 0), (labelsOf cfg mol).getD j [])) ++
      [((ptsOf cfg mol s).getD i (0, 0), (labelsOf cfg mol).getD i [])] ++
      ((List.range ((ptsOf cfg mol s).length - (i + 1))).map fun t =>
        ((ptsOf cfg mol s).getD (i + 1 + t) (0, 0), (labelsOf cfg mol).getD (i + 1 + t) [])) := by
    unfold pairsOf
    conv_lhs => rw [hnlen, List.range_add, List.map_append, List.range_succ,
      List.map_append, List.map_map]
    rfl
  set pts := ptsOf cfg mol s with hPTS
  set labels := labelsOf cfg mol with hLAB
  set E := extentsWithLabelsAndBonds pts labels mol.bonds with hE
  set oy := oyFP cfg.pad E with hOY
  set ox := oxFP cfg.pad E with hOX
  -- split the writes of atom `i` at character `k`
  have hklen : (labels.getD i []).length =
      (k + 1) + ((labels.getD i []).length - (k + 1)) := by omega
  have hFi : atomWriteOps oy ox (pts.getD i (0, 0)) (labels.getD i []) =
      ((List.range k).map fun (kk : ℕ) =>
        (((pts.getD i (0, 0)).2 + oy,
          labelStart (pts.getD i (0, 0)).1 (labels.getD i []) + ox + (kk : ℤ)),
         (labels.getD i []).getD kk ' ')) ++
      [(((pts.getD i (0, 0)).2 + oy,
          labelStart (pts.getD i (0, 0)).1 (labels.getD i []) + ox + (k : ℤ)),
         (labels.getD i []).getD k ' ')] ++
      ((List.range ((labels.getD i []).length - (k + 1))).map fun (t : ℕ) =>
        (((pts.getD i (0, 0)).2 + oy,
          labelStart (pts.getD i (0, 0)).1 (labels.getD i []) + ox + ((k + 1 + t : ℕ) : ℤ)),
         (labels.getD i []).getD (k + 1 + t) ' ')) := by
    unfold atomWriteOps
    conv_lhs => rw [hklen, List.range_add, List.map_append, List.range_succ,
      List.map_append, List.map_map]
    rfl
  have hops : atomOpsFP cfg pts labels mol.bonds =
      (((List.range i).map fun j => (pts.getD j (0, 0), labels.getD j [])).flatMap
        fun pl => atomWriteOps oy ox pl.1 pl.2) ++
      atomWriteOps oy ox (pts.getD i (0, 0)) (labels.getD i []) ++
      (((List.range (pts.length - (i + 1))).map fun t =>
          (pts.getD (i + 1 + t) (0, 0), labels.getD (i + 1 + t) [])).flatMap
        fun pl => atomWriteOps oy ox pl.1 pl.2) := by
    unfold atomOpsFP
    rw [hpair]
    rw [List.flatMap_append, List.flatMap_append, List.flatMap_cons, List.flatMap_nil,
      List.append_nil]
  rw [hops, hFi]
  simp only [List.filter_append]
  have hfB1 : List.filter
      (fun op => decide (op.1.1 = (pts.getD i (0, 0)).2 + oy ∧
        op.1.2 = labelStart (pts.getD i (0, 0)).1 (labels.getD i []) + ox + (k : ℤ)))
      ((List.range k).map fun (kk : ℕ) =>
        (((pts.getD i (0, 0)).2 + oy,
          labelStart (pts.getD i (0, 0)).1 (labels.getD i []) + ox + (kk : ℤ)),
         (labels.getD i []).getD kk ' ')) = [] := by
    apply filter_eq_nil_of_false
    intro op hop
    obtain ⟨kk, hkk, hfe⟩ := List.mem_map.mp hop
    rw [← hfe]
    have hkk' := List.mem_range.mp hkk
    simp only [decide_eq_false_iff_not]
    rintro ⟨h1, h2⟩
    omega
  have hfB2 : List.filter
      (fun op => decide (op.1.1 = (pts.getD i (0, 0)).2 + oy ∧
        op.1.2 = labelStart (pts.getD i (0, 0)).1 (labels.getD i []) + ox + (k : ℤ)))
      ((List.range ((labels.getD i []).length - (k + 1))).map fun (t : ℕ) =>
        (((pts.getD i (0, 0)).2 + oy,
          labelStart (pts.getD i (0, 0)).1 (labels.getD i []) + ox + ((k + 1 + t : ℕ) : ℤ)),
         (labels.getD i []).getD (k + 1 + t) ' ')) = [] := by
    apply filter_eq_nil_of_false
    intro op hop
    obtain ⟨t, ht, hfe⟩ := List.mem_map.mp hop
    rw [← hfe]
    simp only [decide_eq_false_iff_not]
    rintro ⟨h1, h2⟩
    omega
  have hfC : List.filter
      (fun op => decide (op.1.1 = (pts.getD i (0, 0)).2 + oy ∧
        op.1.2 = labelStart (pts.getD i (0, 0)).1 (labels.getD i []) + ox + (k : ℤ)))
      (((List.range (pts.length - (i + 1))).map fun t =>
          (pts.getD (i + 1 + t) (0, 0), labels.getD (i + 1 + t) [])).flatMap
        fun pl => atomWriteOps oy ox pl.1 pl.2) = [] := by
    apply filter_eq_nil_of_false
    intro op hop
    obtain ⟨pl, hpl, hop2⟩ := List.mem_flatMap.mp hop
    obtain ⟨t, ht, hple⟩ := List.mem_map.mp hpl
    rw [← hple] at hop2
    dsimp only at hop2
    unfold atomWriteOps at hop2
    obtain ⟨k2, hk2, hop3⟩ := List.mem_map.mp hop2
    rw [← hop3]
    have ht' := List.mem_range.mp ht
    have hk2' := List.mem_range.mp hk2
    simp only [decide_eq_false_iff_not]
    rintro ⟨hrow, hcol⟩
    rcases hnl (i + 1 + t) (by omega) (by omega) with hj | hj | hj
    · exact hj (by omega)
    · omega
    · omega
  have hfk : (fun op => decide (op.1.1 = (pts.getD i (0, 0)).2 + oy ∧
        op.1.2 = labelStart (pts.getD i (0, 0)).1 (labels.getD i []) + ox + (k : ℤ)))
      ((((pts.getD i (0, 0)).2 + oy,
          labelStart (pts.getD i (0, 0)).1 (labels.getD i []) + ox + (k : ℤ)),
         (labels.getD i []).getD k ' ') : WriteOp) = true := by
    simp
  rw [hfB1, hfB2, hfC, List.filter_cons, if_pos hfk, List.filter_nil]
  simp only [List.append_nil, List.nil_append]
  rw [List.getLast?_concat]
  rfl

theorem layoutLoop_no_overlap (bump : ℚ) (coords : List (ℚ × ℚ)) (labels : List (List Char))
    (fuel : ℕ) (s : ℚ)
    (h : labelsOverlap (placeAtomsEvenGrid coords s) labels = false) :
    layoutLoop bump coords labels fuel s = placeAtomsEvenGrid coords s := by
  cases fuel with
  | zero => rfl
  | succ n => simp [layoutLoop, h]

theorem c1mol_pts : ptsOf defaultCfg c1mol (4 / 3) = [(0, 0), (0, 0)] := by
  have hplace : placeAtomsEvenGrid c1mol.coords (4 / 3) = [(0, 0), (0, 0)] := by
    norm_num [c1mol, placeAtomsEvenGrid, nearestEven, jsRound]
  unfold ptsOf
  rw [layoutLoop_no_overlap _ _ _ _ _ (by rw [hplace]; decide), hplace]

/-- **C1** (counterexample).  Two atoms (`N` then `O`) at identical
coordinates parse successfully; both place at the same grid point
(the defective overlap test does not object), so the `O` label
overwrites the `N` label at their shared centered cell `(2, 2)`, and
the final output is `"  O"` — the `N` label does not appear in the
final grid at its computed row and column, refuting the claim for
atom 0. -/
theorem c1_counterexample :
    parseV2000Molblock exTwoAtomMb = .ok c1mol ∧
    atomLabel defaultCfg c1mol 0 = ['N'] ∧
    ptsOf defaultCfg c1mol (4 / 3) = [(0, 0), (0, 0)] ∧
    atomRow defaultCfg c1mol (4 / 3) 0 = 2 ∧
    atomColStart defaultCfg c1mol (4 / 3) 0 = 2 ∧
    gridOf defaultCfg c1mol (4 / 3) 2 2 = 'O' ∧
    drawMolAt defaultCfg c1mol (4 / 3) = "  O" ∧
    'O' ≠ 'N' := by
  refine ⟨by decide, by decide, c1mol_pts, ?_, ?_, ?_, ?_, by decide⟩
  · unfold atomRow oyOf extOf
    rw [c1mol_pts]
    decide
  · unfold atomColStart atomLabel oxOf extOf
    rw [c1mol_pts]
    decide
  · unfold gridOf
    rw [c1mol_pts]
    decide
  · unfold drawMolAt
    rw [c1mol_pts]
    decide

theorem oneAtom_pts : ptsOf defaultCfg ⟨[(0, 0)], [['C']], [0], []⟩ 1 = [(0, 0)] := by
  have hplace : placeAtomsEvenGrid ([(0, 0)] : List (ℚ × ℚ)) 1 = [(0, 0)] := by
    norm_num [placeAtomsEvenGrid, nearestEven, jsRound]
  unfold ptsOf
  rw [layoutLoop_no_overlap _ _ _ _ _ (by rw [hplace]; decide), hplace]

/-- Concrete instance of `c1_label_cell_content`: the lone atom of
`exOneAtomMb` has its `C` at its centered cell. -/
theorem c1_label_cell_content_witness :
    gridOf defaultCfg ⟨[(0, 0)], [['C']], [0], []⟩ 1
        (atomRow defaultCfg ⟨[(0, 0)], [['C']], [0], []⟩ 1 0)
        (atomColStart defaultCfg ⟨[(0, 0)], [['C']], [0], []⟩ 1 0 + (0 : ℤ)) =
      (atomLabel defaultCfg ⟨[(0, 0)], [['C']], [0], []⟩ 0).getD 0 ' ' :=
  c1_label_cell_content defaultCfg exOneAtomMb ⟨[(0, 0)], [['C']], [0], []⟩ 1
    (by decide) (by decide) 0 0
    (by rw [oneAtom_pts]; decide)
    (by decide)
    (by
      intro j hj1 hj2
      rw [oneAtom_pts] at hj2
      simp at hj2
      omega)

/-- Concrete instance of `c10_zero_atoms_empty_output` at `exEmptyMb`. -/
theorem c10_zero_atoms_empty_output_witness :
    drawMolAt defaultCfg ⟨[], [], [], []⟩ (4 / 3) = "" :=
  c10_zero_atoms_empty_output defaultCfg exEmptyMb ⟨[], [], [], []⟩ (4 / 3)
    (by decide) rfl rfl
